import Mathlib

/-!
# NXDNGateway: `CGPSHandler` (GPSHandler.cpp)

A shallow embedding of the GPS data handler of the NXDN gateway: the
reassembly of 20-byte data blocks into the 320-byte array `m_data`, the
validation of the reassembled NMEA sentence (`processNMEA`, `checkXOR`) and the
formatting of the APRS line handed to the writer.

Conventions.
* A byte is a `Nat`; byte arithmetic is reduced `% 256` where the C++ stores
  into an `unsigned char`.  A `std::string` and a C array are a `List Nat`.
* A read outside `m_data`, a store outside the token array `pRMC[20]`, an
  `atoi` result outside `int` and a `sprintf` past `output[300]` have no
  defined behaviour in C++; `processNMEA` reports them as `Outcome.undefined`
  with the rule that broke.
* `m_writer` is the external APRS writer; the model keeps the list of the
  lines passed to `m_writer.write`, oldest first.
* Logging (`LogDebug`, `CUtils::dump`) has no effect on the handler.
-/

namespace NXDNGateway

/-- Bytes of an ASCII text. -/
def bytes (s : String) : List Nat := s.toList.map Char.toNat

def NXDN_DATA_TYPE_GPS : Nat := 0x06

def NXDN_DATA_LENGTH : Nat := 20

def NXDN_DATA_MAX_LENGTH : Nat := 16 * NXDN_DATA_LENGTH

/-- Number of entries of the token array `char* pRMC[20U]`. -/
def PRMC_SIZE : Nat := 20

/-- Number of bytes of `char output[300U]`. -/
def OUTPUT_SIZE : Nat := 300

/-- The members of `CGPSHandler`.  `m_writer` stands for the lines written so
far.  `undefinedBehaviour` is a ghost flag: it is raised when a call leaves
defined C++ behaviour (a copy past `m_data`, or `Outcome.undefined` in
`processNMEA`) and nothing lowers it again. -/
structure CGPSHandler where
  m_callsign : List Nat
  m_writer : List (List Nat)
  m_data : List Nat
  m_length : Nat
  m_source : List Nat
  undefinedBehaviour : Bool
  deriving DecidableEq, Repr

/-- The rule of C++ that a run of `processNMEA` broke. -/
inductive Fault where
  /-- a read outside the array `m_data` -/
  | read
  /-- a store outside `pRMC[20]` -/
  | tokens
  /-- `atoi` of a number that is no `int` -/
  | atoi
  /-- `sprintf` wrote the given text and its terminator past `output[300]` -/
  | output (text : List Nat)
  deriving DecidableEq, Repr

/-- The `return` statements of `processNMEA` before `m_writer.write`. -/
inductive Reject where
  /-- "Not GPS data type" -/
  | notGPS
  /-- "Doesn't start with $G" -/
  | noDollarG
  /-- "Can't find a *" -/
  | noStar
  /-- "Checksum failed" -/
  | checksum
  /-- "Unhandled NMEA sentence" -/
  | unhandled
  /-- "Position data isn't correct" -/
  | position
  /-- "GPS data isn't valid" -/
  | notValid
  deriving DecidableEq, Repr

/-- What one call of `processNMEA` does. -/
inductive Outcome where
  | rejected (r : Reject)
  | written (line : List Nat)
  | undefined (f : Fault)
  deriving DecidableEq, Repr

/-! ## C library functions -/

/-- `strchr(s, c)` for `c ≠ 0`, where `s` is the rest of the array from index
`i` on: `some (some j)` is a pointer to index `j`, `some none` is `NULL`, and
`none` means that the scan left the array. -/
def strchr : List Nat → Nat → Nat → Option (Option Nat)
  | [], _, _ => none
  | b :: rest, c, i =>
    if b = c then some (some i)
    else if b = 0 then some none
    else strchr rest c (i + 1)

/-- The C string that starts the given rest of the array: the bytes before the
first NUL, or `none` when there is no NUL inside the array. -/
def cstring : List Nat → Option (List Nat)
  | [] => none
  | b :: rest => if b = 0 then some [] else (cstring rest).map (fun s => b :: s)

/-- `std::string::c_str()` read by `%s`: the text up to the first NUL. -/
def c_str (s : List Nat) : List Nat := s.takeWhile (fun b => b != 0)

/-- The delimiters `",\r\n"` of the `strtok` call. -/
def isDelim (b : Nat) : Bool := b == 44 || b == 13 || b == 10

/-- First step of `strtok`: skip the leading delimiters. -/
def skipDelims : List Nat → List Nat
  | [] => []
  | b :: rest => if isDelim b then skipDelims rest else b :: rest

/-- Second step of `strtok`: the token runs to the next delimiter, which is
overwritten by NUL, and the scan resumes after it; at the end of the string
the scan stays there. -/
def takeToken : List Nat → List Nat × List Nat
  | [] => ([], [])
  | b :: rest =>
    if isDelim b then ([], rest)
    else ((b :: (takeToken rest).1), (takeToken rest).2)

/-- One call of `strtok` on the text that is left: `none` is `NULL`, otherwise
the token and the text left for the next call. -/
def strtok (s : List Nat) : Option (List Nat × List Nat) :=
  match skipDelims s with
  | [] => none
  | b :: rest => some (takeToken (b :: rest))

/-- The loop `while ((p = ::strtok(d, ",\r\n")) != NULL)`: the tokens in the
order they are found.  Every call consumes a byte, so `fuel` above the length
of the text never runs out (`strtokLoop_fuel`). -/
def strtokLoop : Nat → List Nat → List (List Nat)
  | 0, _ => []
  | fuel + 1, s =>
    match strtok s with
    | none => []
    | some (t, r) => t :: strtokLoop fuel r

/-- `isspace` in the C locale. -/
def isSpace (b : Nat) : Bool := b == 32 || (9 ≤ b && b ≤ 13)

def isDigit (b : Nat) : Bool := 48 ≤ b && b ≤ 57

/-- The digits that start the text, read as a decimal number on top of `acc`. -/
def atoiDigits : List Nat → Nat → Nat
  | [], acc => acc
  | b :: rest, acc => if isDigit b then atoiDigits rest (acc * 10 + (b - 48)) else acc

/-- The number `atoi` reads: white space, an optional sign, decimal digits. -/
def atoiValue (s : List Nat) : Int :=
  match s.dropWhile isSpace with
  | [] => 0
  | b :: rest =>
    if b = 45 then - (atoiDigits rest 0 : Int)
    else if b = 43 then (atoiDigits rest 0 : Int)
    else (atoiDigits (b :: rest) 0 : Int)

/-- `atoi`: defined when the number is an `int`. -/
def atoi (s : List Nat) : Option Int :=
  let v := atoiValue s
  if -2147483648 ≤ v ∧ v ≤ 2147483647 then some v else none

/-- Decimal digits of a number, most significant first (`fuel` digits at most). -/
def decimalDigits : Nat → Nat → List Nat
  | 0, _ => []
  | fuel + 1, n => if n < 10 then [48 + n] else decimalDigits fuel (n / 10) ++ [48 + n % 10]

/-- `%03d` of an `int`: sign, then the digits padded with zeros to a width of
three characters in all. -/
def sprintf_03d (v : Int) : List Nat :=
  let ds := decimalDigits 10 v.natAbs
  if v < 0 then 45 :: (List.replicate (2 - ds.length) 48 ++ ds)
  else List.replicate (3 - ds.length) 48 ++ ds

/-- One upper-case hexadecimal digit. -/
def hexDigitUpper (n : Nat) : Nat := if n < 10 then 48 + n else 55 + n

/-- `%02X` of an `unsigned char`: two upper-case hexadecimal digits. -/
def sprintf_02X (res : Nat) : List Nat :=
  [hexDigitUpper (res / 16 % 16), hexDigitUpper (res % 16)]

/-- `memcpy(dst + off, src, src.length)`; the bytes that fall outside `dst` are
not part of the array. -/
def memcpy (dst : List Nat) (off : Nat) (src : List Nat) : List Nat :=
  (dst.take off ++ src ++ dst.drop (off + src.length)).take dst.length

/-! ## `CGPSHandler` -/

/-- The loop `for (char* q = p1 + 1U; q < p2; q++) res ^= *q;` over the bytes
it visits; `res` is an `unsigned char`. -/
def xorLoop : List Nat → Nat → Nat
  | [], res => res
  | b :: rest, res => xorLoop rest ((res ^^^ b) % 256)

/-- `CGPSHandler::checkXOR` on the array `m_data`.  `none`: a pointer is
`NULL` or a byte compared by `memcmp(buffer, p2 + 1U, 2U)` lies outside the
array. -/
def checkXOR (d : List Nat) : Option Bool :=
  match strchr d 36 0, strchr d 42 0 with
  | some (some p1), some (some p2) =>
    let res := xorLoop ((d.drop (p1 + 1)).take (p2 - (p1 + 1))) 0
    match d.get? (p2 + 1), d.get? (p2 + 2) with
    | some c1, some c2 => some (decide (sprintf_02X res = [c1, c2]))
    | _, _ => none
  | _, _ => none

/-- The tokens the `strtok` loop finds from `m_data + 1U` on; `none` when the
text is not terminated inside the array. -/
def tokenize (d : List Nat) : Option (List (List Nat)) :=
  (cstring (d.drop 1)).map (fun text => strtokLoop (text.length + 1) text)

/-- `CGPSHandler::processNMEA` up to the check of the GPS fix: the tokens of an
accepted sentence, or the way the call ends.  `m_data` has
`NXDN_DATA_MAX_LENGTH` bytes, so the reads at the indices 0 to 6 are inside. -/
def validate (d : List Nat) : Except Outcome (List (List Nat)) :=
  if d.take 1 ≠ [NXDN_DATA_TYPE_GPS] then .error (.rejected .notGPS) else
  if (d.drop 1).take 2 ≠ bytes "$G" then .error (.rejected .noDollarG) else
  match strchr (d.drop 1) 42 1 with
  | none => .error (.undefined .read)
  | some none => .error (.rejected .noStar)
  | some (some _) =>
    match checkXOR d with
    | none => .error (.undefined .read)
    | some false => .error (.rejected .checksum)
    | some true =>
      if (d.drop 4).take 3 ≠ bytes "RMC" then .error (.rejected .unhandled) else
      match tokenize d with
      | none => .error (.undefined .read)
      | some pRMC =>
        if PRMC_SIZE < pRMC.length then .error (.undefined .tokens) else
        match pRMC.get? 3, pRMC.get? 4, pRMC.get? 5, pRMC.get? 6 with
        | some t3, some t4, some t5, some t6 =>
          if t3.length = 0 ∨ t4.length = 0 ∨ t5.length = 0 ∨ t6.length = 0 then
            .error (.rejected .position)
          else
            match pRMC.get? 2 with
            | none => .error (.undefined .read)
            | some t2 =>
              if t2 ≠ bytes "A" then .error (.rejected .notValid) else .ok pRMC
        | _, _, _, _ => .error (.rejected .position)

/-- The text the `sprintf` call of `processNMEA` formats from the tokens of an
accepted sentence; `none` when `atoi` is undefined. -/
def formatOutput (m_source m_callsign : List Nat) (pRMC : List (List Nat)) :
    Option (List Nat) :=
  let head := c_str m_source ++ bytes "-Y>APDPRS,NXDN*,qAR," ++ c_str m_callsign ++
    bytes ":!" ++ (pRMC.getD 3 []) ++ (pRMC.getD 4 []) ++ bytes "/" ++
    (pRMC.getD 5 []) ++ (pRMC.getD 6 [])
  match pRMC.get? 7, pRMC.get? 8 with
  | some t7, some t8 =>
    if 0 < t7.length ∧ 0 < t8.length then
      match atoi t8, atoi t7 with
      | some bearing, some speed =>
        some (head ++ bytes "r" ++ sprintf_03d bearing ++ bytes "/" ++
          sprintf_03d speed ++ bytes " via MMDVM")
      | _, _ => none
    else some (head ++ bytes "r via MMDVM")
  | _, _ => some (head ++ bytes "r via MMDVM")

/-- `m_writer.write(output)` after `sprintf` has formatted `text`: the text and
its terminating NUL have to fit into `char output[300U]`. -/
def writeOutput (text : List Nat) : Outcome :=
  if text.length + 1 ≤ OUTPUT_SIZE then .written text else .undefined (.output text)

/-- `CGPSHandler::processNMEA`. -/
def processNMEA (h : CGPSHandler) : Outcome :=
  match validate h.m_data with
  | .error o => o
  | .ok pRMC =>
    match formatOutput h.m_source h.m_callsign pRMC with
    | none => .undefined .atoi
    | some text => writeOutput text

/-- `CGPSHandler::reset`. -/
def reset (h : CGPSHandler) : CGPSHandler :=
  { h with m_data := List.replicate NXDN_DATA_MAX_LENGTH 0, m_length := 0, m_source := [] }

/-- The constructor: `m_data = new unsigned char[NXDN_DATA_MAX_LENGTH]`, then
`reset()`. -/
def construct (callsign : List Nat) : CGPSHandler :=
  reset { m_callsign := callsign, m_writer := [], m_data := [], m_length := 0,
          m_source := [], undefinedBehaviour := false }

/-- `CGPSHandler::processHeader`. -/
def processHeader (h : CGPSHandler) (source : List Nat) : CGPSHandler :=
  { reset h with m_source := source }

/-- `CGPSHandler::processData` on a block `data` of `NXDN_DATA_LENGTH + 1`
bytes; `m_length` is an `unsigned int`. -/
def processData (h : CGPSHandler) (data : List Nat) : CGPSHandler :=
  let h1 : CGPSHandler :=
    { h with
      m_data := memcpy h.m_data h.m_length ((data.drop 1).take NXDN_DATA_LENGTH),
      m_length := (h.m_length + NXDN_DATA_LENGTH) % 4294967296,
      undefinedBehaviour := h.undefinedBehaviour ||
        decide (h.m_data.length < h.m_length + NXDN_DATA_LENGTH) ||
        decide (data.length < NXDN_DATA_LENGTH + 1) }
  if data.get? 0 = some 0 then
    match processNMEA h1 with
    | .rejected _ => reset h1
    | .written line => reset { h1 with m_writer := h1.m_writer ++ [line] }
    | .undefined _ => reset { h1 with undefinedBehaviour := true }
  else h1

/-- `CGPSHandler::processEnd`. -/
def processEnd (h : CGPSHandler) : CGPSHandler := reset h

/-- `CGPSHandler::clock`: forwarded to the writer, which writes no line of the
handler. -/
def clock (h : CGPSHandler) (_ms : Nat) : CGPSHandler := h

/-- `processData` on the blocks of a list, in order. -/
def processBlocks (h : CGPSHandler) (blocks : List (List Nat)) : CGPSHandler :=
  blocks.foldl processData h

/-- One call of a public method of the handler that touches the reassembly or
the writer. -/
inductive Call where
  | processHeader (source : List Nat)
  | processData (data : List Nat)
  | processEnd
  | clock (ms : Nat)
  deriving DecidableEq, Repr

/-- The handler after one call. -/
def step (h : CGPSHandler) : Call → CGPSHandler
  | .processHeader source => processHeader h source
  | .processData data => processData h data
  | .processEnd => processEnd h
  | .clock ms => clock h ms

/-- The handler after a sequence of calls, in order. -/
def run (h : CGPSHandler) (calls : List Call) : CGPSHandler :=
  calls.foldl step h

/-! ## Words of the specification -/

/-- Following the claim on the source: the source the calls so far have
established, which is that of the last `processHeader` call when no reset
(terminal block, `processEnd`) came after it, and the empty one otherwise. -/
def establishedSource (calls : List Call) : List Nat :=
  calls.foldl
    (fun src c =>
      match c with
      | .processHeader source => source
      | .processData data => if data.get? 0 = some 0 then [] else src
      | .processEnd => []
      | .clock _ => src)
    []

/-- Following the spec, "field indices are positional": the text is cut at
every `,`, CR and LF, so that two delimiters in a row enclose an empty field. -/
def positionalFields : List Nat → List (List Nat)
  | [] => [[]]
  | b :: rest =>
    if isDelim b then [] :: positionalFields rest
    else
      match positionalFields rest with
      | [] => [[b]]
      | f :: fs => (b :: f) :: fs

/-- Following the spec, "the running exclusive-or of every byte". -/
def xorAll (l : List Nat) : Nat := l.foldl (fun a b => a ^^^ b) 0

/-- The sixteen upper-case hexadecimal digits. -/
def upperHexDigits : List Nat := bytes "0123456789ABCDEF"

/-- The sixteen lower-case hexadecimal digits. -/
def lowerHexDigits : List Nat := bytes "0123456789abcdef"

/-- Following the spec, "two hexadecimal digits": the rendering of a byte in
the given sixteen digits. -/
def hexRendering (digits : List Nat) (n : Nat) : List Nat :=
  [digits.getD (n / 16) 0, digits.getD (n % 16) 0]

/-- One bit of the byte at index `i` flipped. -/
def flipBit (d : List Nat) (i bit : Nat) : List Nat :=
  d.set i (d.getD i 0 ^^^ 2 ^ bit)

/-! ## Inputs of the examples -/

/-- A payload cut into `k` blocks of `NXDN_DATA_LENGTH` bytes, the last one
padded with zeros; each block gets the control byte 0x01, the last one the
terminal control byte 0x00. -/
def blocksOf : Nat → List Nat → List (List Nat)
  | 0, _ => []
  | 1, payload =>
    [0 :: (payload ++ List.replicate (NXDN_DATA_LENGTH - payload.length) 0).take NXDN_DATA_LENGTH]
  | k + 2, payload =>
    (1 :: (payload ++ List.replicate (NXDN_DATA_LENGTH - payload.length) 0).take NXDN_DATA_LENGTH)
      :: blocksOf (k + 1) (payload.drop NXDN_DATA_LENGTH)

/-- The array `m_data` when the terminal block arrives: the tag byte, the
sentence, and zeros up to `NXDN_DATA_MAX_LENGTH` bytes. -/
def bufferOf (sentence : String) : List Nat :=
  let payload := NXDN_DATA_TYPE_GPS :: bytes sentence
  payload ++ List.replicate (NXDN_DATA_MAX_LENGTH - payload.length) 0

/-- A handler of station `W1AW` that holds the given sentence of source
`ABC123`, as `processNMEA` finds it. -/
def handlerOf (sentence : String) : CGPSHandler :=
  { m_callsign := bytes "W1AW", m_writer := [], m_data := bufferOf sentence,
    m_length := 0, m_source := bytes "ABC123", undefinedBehaviour := false }

/-- The sentence of the end-to-end scenario as the spec prints it. -/
def printedSentence : String :=
  "$GPRMC,123456,A,4807.038,N,01131.000,E,022.4,084.4,230394,003.1,W*6A"

/-- The sentence of the end-to-end scenario with the checksum of its bytes. -/
def checkedSentence : String :=
  "$GPRMC,123456,A,4807.038,N,01131.000,E,022.4,084.4,230394,003.1,W*60"

/-- The line the end-to-end scenario expects. -/
def expectedLine : List Nat :=
  bytes "ABC123-Y>APDPRS,NXDN*,qAR,W1AW:!4807.038N/01131.000Er084/022 via MMDVM"

/-- A sentence with a valid checksum whose latitude field is empty. -/
def emptyLatitudeSentence : String :=
  "$GPRMC,123456,A,,N,01131.000,E,022.4,084.4,230394,003.1,W*7E"

/-- A sentence with a valid checksum, status `V` and an empty time field. -/
def voidFixSentence : String := "$GPRMC,,V,A,N,01131.000,E,022.4,084.4*77"

/-- A sentence with a valid checksum, status `A` and an empty time field. -/
def emptyTimeSentence : String :=
  "$GPRMC,,A,4807.038,N,01131.000,E,022.4,084.4,230394,003.1,W*67"

/-- A sentence with a valid checksum whose speed field is empty. -/
def emptySpeedSentence : String :=
  "$GPRMC,123456,A,4807.038,N,01131.000,E,,084.4,230394,003.1,W*4A"

/-- A sentence with a valid checksum that ends after the speed field. -/
def noBearingSentence : String := "$GPRMC,123456,A,4807.038,N,01131.000,E,022.4*32"

/-- A sentence with a valid checksum in which the bytes before the `.` of the
latitude have the exclusive-or 0x03, the digits that follow the `.`. -/
def flipSentence : String :=
  "$GPRMC,123456.25,A,4807.038,N,01131.000,E,022.4,084.4,230394,003.1,W*49"

/-- The same sentence after bit 2 of the `.` of the latitude has flipped. -/
def flippedSentence : String :=
  "$GPRMC,123456.25,A,4807*038,N,01131.000,E,022.4,084.4,230394,003.1,W*49"

/-- A `$GPGGA` sentence with a valid checksum. -/
def ggaSentence : String :=
  "$GPGGA,123456,4807.038,N,01131.000,E,1,08,0.9,545.4,M,46.9,M,,*4D"

/-- A block that is not the terminal one: control byte 0x01 and 20 bytes `A`. -/
def fillerBlock : List Nat := 1 :: List.replicate 20 65

/-- A sentence with a valid checksum, of 300 bytes, whose latitude has 280
digits. -/
def longLatitudeSentence : String :=
  "$GPRMC,1,A," ++ String.mk (List.replicate 280 '1') ++ ",N,3,E*03"

/-- The checksum example as the spec prints it. -/
def printedExample : String := "$GPRMC,A,1,2*58"

/-- The checksum example with the checksum of its bytes. -/
def checkedExample : String := "$GPRMC,A,1,2*25"

/-- A sentence with a valid checksum and 21 fields. -/
def manyFieldsSentence : String :=
  "$GPRMC,1,A,2,3,4,5,6,7,8,9,10,11,12,13,14,15,16,17,18,19*3A"

/-- A sentence whose checksum follows the sentence type, before all fields. -/
def earlyChecksumSentence : String :=
  "$GPRMC*4B,123456,A,4807.038,N,01131.000,E,022.4,084.4"

/-- A sentence with a valid checksum that ends after the longitude hemisphere. -/
def noSpeedSentence : String := "$GPRMC,123456,A,4807.038,N,01131.000,E*34"

/-- The end-to-end scenario: a handler of station `W1AW` gets the header of
source `ABC123` and then the sentence, after the tag byte, in `k` blocks. -/
def scenario (sentence : String) (k : Nat) : CGPSHandler :=
  processBlocks (processHeader (construct (bytes "W1AW")) (bytes "ABC123"))
    (blocksOf k (NXDN_DATA_TYPE_GPS :: bytes sentence))

end NXDNGateway

namespace NXDNGateway

set_option maxRecDepth 100000

/-! ## The C library functions -/

theorem skipDelims_head {s rest : List Nat} {b : Nat} (h : skipDelims s = b :: rest) :
    isDelim b = false := by
  induction s with
  | nil => simp [skipDelims] at h
  | cons a s ih =>
    unfold skipDelims at h
    split at h
    · exact ih h
    · rename_i hd
      injection h with h1 h2
      subst h1
      simpa using hd

theorem skipDelims_length (s : List Nat) : (skipDelims s).length ≤ s.length := by
  induction s with
  | nil => simp [skipDelims]
  | cons a s ih =>
    unfold skipDelims
    split
    · simp only [List.length_cons]; omega
    · simp

theorem takeToken_length (s : List Nat) : (takeToken s).2.length ≤ s.length := by
  induction s with
  | nil => simp [takeToken]
  | cons a s ih =>
    unfold takeToken
    split
    · simp
    · simp only [List.length_cons]; omega

theorem strtok_token_ne_nil {s t r : List Nat} (h : strtok s = some (t, r)) : t ≠ [] := by
  unfold strtok at h
  split at h
  · simp at h
  · rename_i b rest hs
    have hd := skipDelims_head hs
    simp only [takeToken, hd, Bool.false_eq_true, if_false, Option.some.injEq,
      Prod.mk.injEq] at h
    rw [← h.1]
    simp

theorem strtok_rest_length {s t r : List Nat} (h : strtok s = some (t, r)) :
    r.length < s.length := by
  unfold strtok at h
  split at h
  · simp at h
  · rename_i b rest hs
    have hd := skipDelims_head hs
    have hl := skipDelims_length s
    rw [hs] at hl
    simp only [takeToken, hd, Bool.false_eq_true, if_false, Option.some.injEq,
      Prod.mk.injEq] at h
    have h2 := takeToken_length rest
    rw [h.2] at h2
    simp only [List.length_cons] at hl
    omega

/-- The loop never runs out of fuel: above the length of the text the fuel
does not change the tokens. -/
theorem strtokLoop_fuel (fuel : Nat) (s : List Nat) (h : s.length < fuel) :
    strtokLoop fuel s = strtokLoop (s.length + 1) s := by
  induction fuel using Nat.strong_induction_on generalizing s with
  | _ fuel ih =>
    cases fuel with
    | zero => omega
    | succ fuel =>
      unfold strtokLoop
      cases hst : strtok s with
      | none => rfl
      | some tr =>
        obtain ⟨t, r⟩ := tr
        have hr := strtok_rest_length hst
        simp only [List.cons.injEq, true_and]
        rw [ih fuel (by omega) r (by omega)]
        by_cases hlt : r.length + 1 = s.length
        · rw [hlt]
        · rw [ih s.length (by omega) r (by omega)]

theorem strchr_append (pre post : List Nat) (c i : Nat)
    (hpre : ∀ b ∈ pre, b ≠ c ∧ b ≠ 0) :
    strchr (pre ++ c :: post) c i = some (some (i + pre.length)) := by
  induction pre generalizing i with
  | nil => simp [strchr]
  | cons a pre ih =>
    have ha := hpre a (List.mem_cons_self a pre)
    have h1 := ih (i + 1) (fun b hb => hpre b (List.mem_cons_of_mem a hb))
    rw [List.cons_append, strchr, if_neg ha.1, if_neg ha.2, h1, List.length_cons]
    congr 2
    omega

theorem strchr_decomp {l : List Nat} {c i j : Nat} (h : strchr l c i = some (some j)) :
    ∃ pre post, l = pre ++ c :: post ∧ j = i + pre.length ∧ ∀ b ∈ pre, b ≠ c ∧ b ≠ 0 := by
  induction l generalizing i with
  | nil => simp [strchr] at h
  | cons a l ih =>
    unfold strchr at h
    split at h
    · rename_i hac
      simp only [Option.some.injEq] at h
      exact ⟨[], l, by simp [hac], by simp [h], by simp⟩
    · rename_i hac
      split at h
      · simp at h
      · rename_i ha0
        obtain ⟨pre, post, hl, hj, hpre⟩ := ih h
        refine ⟨a :: pre, post, by simp [hl], by simp only [List.length_cons]; omega, ?_⟩
        intro b hb
        simp only [List.mem_cons] at hb
        rcases hb with hb | hb
        · subst hb; exact ⟨hac, ha0⟩
        · exact hpre b hb

theorem strchr_nul (pre post : List Nat) (c i : Nat) (hc : c ≠ 0)
    (hpre : ∀ b ∈ pre, b ≠ c) : strchr (pre ++ 0 :: post) c i = some none := by
  induction pre generalizing i with
  | nil => simp [strchr, Ne.symm hc]
  | cons a pre ih =>
    have ha := hpre a (List.mem_cons_self a pre)
    rw [List.cons_append, strchr, if_neg ha]
    split
    · rfl
    · exact ih (i + 1) (fun b hb => hpre b (List.mem_cons_of_mem a hb))

/-! ## The checksum -/

theorem xor_mod_256 (a b : Nat) : (a ^^^ b) % 256 = (a % 256) ^^^ (b % 256) := by
  apply Nat.eq_of_testBit_eq
  intro i
  have h256 : (256 : Nat) = 2 ^ 8 := by norm_num
  simp only [h256, Nat.testBit_mod_two_pow, Nat.testBit_xor]
  by_cases hi : i < 8 <;> simp [hi]

theorem foldl_xor (l : List Nat) (a : Nat) :
    l.foldl (fun a b => a ^^^ b) a = a ^^^ xorAll l := by
  unfold xorAll
  induction l generalizing a with
  | nil => simp
  | cons b l ih =>
    simp only [List.foldl_cons, Nat.zero_xor]
    rw [ih (a ^^^ b), ih b, Nat.xor_assoc]

theorem xorAll_cons (b : Nat) (l : List Nat) : xorAll (b :: l) = b ^^^ xorAll l := by
  show List.foldl (fun a b => a ^^^ b) 0 (b :: l) = _
  rw [List.foldl_cons, foldl_xor, Nat.zero_xor]

/-- The loop of `checkXOR` computes the exclusive-or of the bytes, cut to the
eight bits of `res`. -/
theorem xorLoop_eq (l : List Nat) (res : Nat) (hres : res < 256) :
    xorLoop l res = (res ^^^ xorAll l) % 256 := by
  induction l generalizing res with
  | nil =>
    simp only [xorLoop, xorAll, List.foldl_nil, Nat.xor_zero]
    omega
  | cons b l ih =>
    rw [xorLoop, ih _ (Nat.mod_lt _ (by norm_num)), xorAll_cons, ← Nat.xor_assoc,
      xor_mod_256 ((res ^^^ b) % 256), Nat.mod_mod, ← xor_mod_256]

theorem xorAll_lt (l : List Nat) (h : ∀ b ∈ l, b < 256) : xorAll l < 256 := by
  induction l with
  | nil => simp [xorAll]
  | cons b l ih =>
    rw [xorAll_cons]
    have h256 : (256 : Nat) = 2 ^ 8 := by norm_num
    rw [h256]
    apply Nat.xor_lt_two_pow
    · rw [← h256]; exact h b (List.mem_cons_self b l)
    · rw [← h256]; exact ih (fun c hc => h c (List.mem_cons_of_mem b hc))

theorem xorAll_set (l : List Nat) (j m : Nat) (hj : j < l.length) :
    xorAll (l.set j (l.getD j 0 ^^^ m)) = xorAll l ^^^ m := by
  induction l generalizing j with
  | nil => simp at hj
  | cons b l ih =>
    cases j with
    | zero =>
      simp only [List.set_cons_zero, List.getD_cons_zero, xorAll_cons]
      rw [Nat.xor_assoc, Nat.xor_comm m, ← Nat.xor_assoc]
    | succ j =>
      simp only [List.set_cons_succ, List.getD_cons_succ, xorAll_cons]
      rw [ih j (by simpa using hj), Nat.xor_assoc]

theorem xor_ne_self (a m : Nat) (hm : m ≠ 0) : a ^^^ m ≠ a := by
  intro h
  have h1 := Nat.xor_cancel_left a m
  rw [h, Nat.xor_self] at h1
  exact hm h1.symm

theorem hexDigitUpper_inj : ∀ a, a < 16 → ∀ b, b < 16 →
    hexDigitUpper a = hexDigitUpper b → a = b := by
  decide

theorem sprintf_02X_inj {a b : Nat} (ha : a < 256) (hb : b < 256)
    (h : sprintf_02X a = sprintf_02X b) : a = b := by
  simp only [sprintf_02X, List.cons.injEq, and_true] at h
  have h1 := hexDigitUpper_inj _ (Nat.mod_lt _ (by norm_num)) _ (Nat.mod_lt _ (by norm_num)) h.1
  have h2 := hexDigitUpper_inj _ (Nat.mod_lt _ (by norm_num)) _ (Nat.mod_lt _ (by norm_num)) h.2
  omega

/-- `%02X` of a byte is its rendering in the upper-case digits. -/
theorem sprintf_02X_upper : ∀ n, n < 256 → sprintf_02X n = hexRendering upperHexDigits n := by
  decide

theorem lower_ne_upper : ∀ n, n < 256 → (10 ≤ n / 16 ∨ 10 ≤ n % 16) →
    hexRendering lowerHexDigits n ≠ hexRendering upperHexDigits n := by
  decide

theorem get?_after (tag : Nat) (mid post : List Nat) (k : Nat) :
    (tag :: 36 :: (mid ++ 42 :: post)).get? (2 + mid.length + (k + 1)) = post.get? k := by
  have e1 : 2 + mid.length + (k + 1) = (mid.length + (k + 1)) + 1 + 1 := by omega
  rw [e1, List.get?_cons_succ, List.get?_cons_succ, List.get?_eq_getElem?,
    List.getElem?_append_right (by omega)]
  simp
/-- `checkXOR` on an array that starts with a byte that is neither `$`, `*`
nor NUL, then `$`, then bytes `mid` without `*` and NUL, then `*`. -/
theorem checkXOR_normal (tag : Nat) (mid post : List Nat)
    (htag : tag ≠ 36 ∧ tag ≠ 42 ∧ tag ≠ 0) (hmid : ∀ b ∈ mid, b ≠ 42 ∧ b ≠ 0) :
    checkXOR (tag :: 36 :: (mid ++ 42 :: post)) =
      match post with
      | c1 :: c2 :: _ => some (decide (sprintf_02X (xorLoop mid 0) = [c1, c2]))
      | _ => none := by
  have hp1 : strchr (tag :: 36 :: (mid ++ 42 :: post)) 36 0 = some (some 1) := by
    simp [strchr, htag.1, htag.2.2]
  have hp2 : strchr (tag :: 36 :: (mid ++ 42 :: post)) 42 0 = some (some (2 + mid.length)) := by
    rw [strchr, if_neg htag.2.1, if_neg htag.2.2, strchr, if_neg (by decide), if_neg (by decide)]
    exact strchr_append mid post 42 2 hmid
  unfold checkXOR
  rw [hp1, hp2]
  simp only [List.drop_succ_cons, List.drop_zero, Nat.add_sub_cancel_left,
    List.take_left']
  rw [get?_after tag mid post 0, get?_after tag mid post 1]
  match post with
  | [] => rfl
  | [_] => rfl
  | _ :: _ :: _ => rfl

/-- The shape of an array that has passed the tag, `$G` and `*` checks. -/
theorem front_decomp {d : List Nat} {star : Nat}
    (htag : d.take 1 = [NXDN_DATA_TYPE_GPS]) (hG : (d.drop 1).take 2 = bytes "$G")
    (hstar : strchr (d.drop 1) 42 1 = some (some star)) :
    ∃ mid post, d = 6 :: 36 :: (mid ++ 42 :: post) ∧ star = 2 + mid.length ∧
      (∀ b ∈ mid, b ≠ 42 ∧ b ≠ 0) ∧ mid.head? = some 71 := by
  have hG2 : bytes "$G" = [36, 71] := by decide
  rw [hG2] at hG
  match d, htag, hG, hstar with
  | a :: b :: c :: d2, htag, hG, hstar =>
    simp only [List.take_succ_cons, List.take_zero, List.cons.injEq, and_true,
      NXDN_DATA_TYPE_GPS] at htag
    simp only [List.drop_succ_cons, List.drop_zero, List.take_succ_cons, List.take_zero,
      List.cons.injEq, and_true] at hG
    obtain ⟨hb, hc⟩ := hG
    subst htag hb hc
    simp only [List.drop_succ_cons, List.drop_zero] at hstar
    rw [strchr, if_neg (by decide), if_neg (by decide)] at hstar
    obtain ⟨mid, post, hl, hj, hmid⟩ := strchr_decomp hstar
    refine ⟨mid, post, by rw [hl], by omega, hmid, ?_⟩
    cases mid with
    | nil => simp at hl
    | cons m mid => simp at hl; simp [hl.1]
  | [], htag, _, _ => simp at htag
  | [_], _, hG, _ => simp at hG
  | [_, _], _, hG, _ => simp at hG

theorem get?_in_mid (tag : Nat) (mid post : List Nat) (i : Nat) (h1 : 1 ≤ i)
    (h2 : i < 2 + mid.length) (hmid : ∀ b ∈ mid, b ≠ 42 ∧ b ≠ 0) :
    (tag :: 36 :: (mid ++ 42 :: post)).get? i ≠ some 42 ∧
    (tag :: 36 :: (mid ++ 42 :: post)).get? i ≠ some 0 := by
  match i, h1, h2 with
  | 1, _, _ => simp
  | j + 2, _, h2 =>
    have hj : j < mid.length := by omega
    rw [List.get?_cons_succ, List.get?_cons_succ, List.get?_eq_getElem?,
      List.getElem?_append_left hj, List.getElem?_eq_getElem hj]
    have := hmid _ (List.getElem_mem hj)
    simp [this.1, this.2]

/-! ## Accepted sentences -/

/-- What `validate` has checked when it accepts. -/
theorem validate_ok {d : List Nat} {pRMC : List (List Nat)} (h : validate d = .ok pRMC) :
    d.take 1 = [NXDN_DATA_TYPE_GPS] ∧ (d.drop 1).take 2 = bytes "$G" ∧
    (∃ star, strchr (d.drop 1) 42 1 = some (some star)) ∧ checkXOR d = some true ∧
    (d.drop 4).take 3 = bytes "RMC" ∧ tokenize d = some pRMC ∧ pRMC.length ≤ PRMC_SIZE ∧
    (∃ t3 t4 t5 t6, pRMC.get? 3 = some t3 ∧ pRMC.get? 4 = some t4 ∧
      pRMC.get? 5 = some t5 ∧ pRMC.get? 6 = some t6) ∧
    pRMC.get? 2 = some (bytes "A") := by
  unfold validate at h
  split at h
  · simp at h
  rename_i h1
  split at h
  · simp at h
  rename_i h2
  split at h
  · simp at h
  · simp at h
  rename_i star hstar
  split at h
  · simp at h
  · simp at h
  rename_i hx
  split at h
  · simp at h
  rename_i h5
  split at h
  · simp at h
  rename_i toks htok
  split at h
  · simp at h
  rename_i hsize
  split at h
  · rename_i t3 t4 t5 t6 g3 g4 g5 g6
    split at h
    · simp at h
    split at h
    · simp at h
    rename_i t2 g2
    split at h
    · simp at h
    rename_i hA
    simp only [Except.ok.injEq] at h
    subst h
    refine ⟨by simpa using h1, by simpa using h2, ⟨star, hstar⟩, hx, by simpa using h5, htok,
      by omega, ⟨t3, t4, t5, t6, g3, g4, g5, g6⟩, ?_⟩
    rw [g2]
    simpa using hA
  · simp at h

theorem validate_noStar {d : List Nat} (h : strchr (d.drop 1) 42 1 = some none) :
    ∃ r, validate d = .error (.rejected r) := by
  unfold validate
  rw [h]
  split
  · exact ⟨_, rfl⟩
  split
  · exact ⟨_, rfl⟩
  exact ⟨_, rfl⟩

theorem validate_checksum {d : List Nat} {star : Nat}
    (h1 : strchr (d.drop 1) 42 1 = some (some star)) (h2 : checkXOR d = some false) :
    ∃ r, validate d = .error (.rejected r) := by
  unfold validate
  rw [h1, h2]
  split
  · exact ⟨_, rfl⟩
  split
  · exact ⟨_, rfl⟩
  exact ⟨_, rfl⟩
theorem processNMEA_of_error {h : CGPSHandler} {o : Outcome}
    (hv : validate h.m_data = .error o) : processNMEA h = o := by
  unfold processNMEA
  rw [hv]

/-- A sentence that fails one of the checks before the tokens are cut is
rejected, unless a scan leaves the array. -/
theorem validate_structural {d : List Nat}
    (h : ¬ (d.take 1 = [NXDN_DATA_TYPE_GPS] ∧ (d.drop 1).take 2 = bytes "$G" ∧
      (∃ star, strchr (d.drop 1) 42 1 = some (some star)) ∧ checkXOR d = some true ∧
      (d.drop 4).take 3 = bytes "RMC")) :
    (∃ r, validate d = .error (.rejected r)) ∨ validate d = .error (.undefined .read) := by
  unfold validate
  split
  · exact Or.inl ⟨_, rfl⟩
  rename_i h1
  split
  · exact Or.inl ⟨_, rfl⟩
  rename_i h2
  split
  · exact Or.inr rfl
  · exact Or.inl ⟨_, rfl⟩
  rename_i star hstar
  split
  · exact Or.inr rfl
  · exact Or.inl ⟨_, rfl⟩
  rename_i hx
  split
  · exact Or.inl ⟨_, rfl⟩
  rename_i h5
  exact absurd ⟨by simpa using h1, by simpa using h2, ⟨star, hstar⟩, hx, by simpa using h5⟩ h

/-- The pointer `strchr(m_data + 1U, '*')` points to a `*` with no NUL between
index 1 and it. -/
theorem strchr_star {d : List Nat} {star : Nat}
    (h : strchr (d.drop 1) 42 1 = some (some star)) :
    1 ≤ star ∧ d.get? star = some 42 ∧ ∀ j, 1 ≤ j → j < star → d.get? j ≠ some 0 := by
  obtain ⟨pre, post, hl, hj, hpre⟩ := strchr_decomp h
  have hget : ∀ j, 1 ≤ j → d.get? j = (pre ++ 42 :: post).get? (j - 1) := by
    intro j hj1
    rw [← hl, List.get?_eq_getElem?, List.get?_eq_getElem?, List.getElem?_drop]
    congr 1
    omega
  refine ⟨by omega, ?_, ?_⟩
  · rw [hget star (by omega), hj, List.get?_eq_getElem?,
      List.getElem?_append_right (by omega)]
    simp
  · intro j hj1 hj2
    have hlt : j - 1 < pre.length := by omega
    rw [hget j hj1, List.get?_eq_getElem?, List.getElem?_append_left hlt,
      List.getElem?_eq_getElem hlt]
    have := hpre _ (List.getElem_mem hlt)
    simp [this.2]

theorem flipBit_mid (mid post : List Nat) (j bit : Nat) (hj : j < mid.length) :
    flipBit (6 :: 36 :: (mid ++ 42 :: post)) (j + 2) bit =
      6 :: 36 :: (mid.set j (mid.getD j 0 ^^^ 2 ^ bit) ++ 42 :: post) := by
  unfold flipBit
  have hg : (6 :: 36 :: (mid ++ 42 :: post)).getD (j + 2) 0 = mid.getD j 0 := by
    rw [List.getD_cons_succ, List.getD_cons_succ, List.getD_append _ _ _ _ hj]
  rw [hg, List.set_cons_succ, List.set_cons_succ, List.set_append_left _ _ hj]

/-- The exclusive-or the loop computes changes when one bit of one byte is
flipped. -/
theorem xorLoop_flip (mid : List Nat) (j bit : Nat) (hj : j < mid.length) (hbit : bit < 8) :
    xorLoop (mid.set j (mid.getD j 0 ^^^ 2 ^ bit)) 0 ≠ xorLoop mid 0 := by
  have hpow : 2 ^ bit < 256 := by
    have : (256 : Nat) = 2 ^ 8 := by norm_num
    rw [this]
    exact Nat.pow_lt_pow_right (by norm_num) hbit
  rw [xorLoop_eq _ 0 (by norm_num), xorLoop_eq _ 0 (by norm_num), Nat.zero_xor, Nat.zero_xor,
    xorAll_set mid j _ hj, xor_mod_256, Nat.mod_eq_of_lt hpow]
  exact xor_ne_self _ _ (by positivity)

/-! ## Reassembly -/

theorem memcpy_append (P src : List Nat) (n : Nat) (h : src.length ≤ n) :
    memcpy (P ++ List.replicate n 0) P.length src =
      P ++ src ++ List.replicate (n - src.length) 0 := by
  unfold memcpy
  have h1 : (P ++ List.replicate n 0).take P.length = P := by simp
  have h2 : (P ++ List.replicate n 0).drop (P.length + src.length) =
      List.replicate (n - src.length) 0 := by
    rw [List.drop_append]
    simp
  rw [h1, h2]
  apply List.take_of_length_le
  simp only [List.length_append, List.length_replicate]
  omega

/-- One block that is not the terminal one, appended to the bytes `P` that
the array holds in front of its zeros. -/
theorem processData_append (h : CGPSHandler) (P data : List Nat)
    (hd : h.m_data = P ++ List.replicate (NXDN_DATA_MAX_LENGTH - P.length) 0)
    (hl : h.m_length = P.length)
    (hroom : P.length + NXDN_DATA_LENGTH ≤ NXDN_DATA_MAX_LENGTH)
    (hlen : data.length = NXDN_DATA_LENGTH + 1) (hctl : data.get? 0 ≠ some 0) :
    processData h data =
      { h with
        m_data := P ++ data.drop 1 ++
          List.replicate (NXDN_DATA_MAX_LENGTH - (P.length + NXDN_DATA_LENGTH)) 0,
        m_length := P.length + NXDN_DATA_LENGTH } := by
  have htake : (data.drop 1).take NXDN_DATA_LENGTH = data.drop 1 := by
    apply List.take_of_length_le
    simp [hlen]
  have hdl : (data.drop 1).length = NXDN_DATA_LENGTH := by simp [hlen]
  unfold processData
  simp only [if_neg hctl, htake, hd, hl]
  have hm := memcpy_append P (data.drop 1) (NXDN_DATA_MAX_LENGTH - P.length) (by omega)
  rw [hm, hdl]
  simp only [NXDN_DATA_MAX_LENGTH, NXDN_DATA_LENGTH] at hroom ⊢
  have e1 : (P.length + 20) % 4294967296 = P.length + 20 := by omega
  have e2 : 16 * 20 - P.length - 20 = 16 * 20 - (P.length + 20) := by omega
  have e3 : decide ((P ++ List.replicate (16 * 20 - P.length) 0).length < P.length + 20) = false := by
    simp only [List.length_append, List.length_replicate, decide_eq_false_iff_not]
    omega
  have e4 : decide (data.length < 20 + 1) = false := by
    simp only [decide_eq_false_iff_not]
    simp only [NXDN_DATA_LENGTH] at hlen
    omega
  rw [e1, e2, e3, e4]
  simp

theorem processBlocks_append (blocks : List (List Nat)) :
    ∀ (h : CGPSHandler) (P : List Nat),
      h.m_data = P ++ List.replicate (NXDN_DATA_MAX_LENGTH - P.length) 0 →
      h.m_length = P.length →
      P.length + NXDN_DATA_LENGTH * blocks.length ≤ NXDN_DATA_MAX_LENGTH →
      (∀ b ∈ blocks, b.length = NXDN_DATA_LENGTH + 1) →
      (∀ b ∈ blocks, b.get? 0 ≠ some 0) →
      processBlocks h blocks =
        { h with
          m_data := P ++ (blocks.map (fun b => b.drop 1)).flatten ++
            List.replicate
              (NXDN_DATA_MAX_LENGTH - (P.length + NXDN_DATA_LENGTH * blocks.length)) 0,
          m_length := P.length + NXDN_DATA_LENGTH * blocks.length } := by
  induction blocks with
  | nil =>
    intro h P hd hl _ _ _
    simp only [processBlocks, List.foldl_nil, List.map_nil, List.flatten_nil, List.append_nil,
      List.length_nil, Nat.mul_zero, Nat.add_zero]
    rw [← hd, ← hl]
  | cons b blocks ih =>
    intro h P hd hl hroom hlen hctl
    have hb := hlen b (List.mem_cons_self b blocks)
    have hbd : (b.drop 1).length = NXDN_DATA_LENGTH := by simp [hb]
    simp only [List.length_cons] at hroom
    have hroom1 : P.length + NXDN_DATA_LENGTH ≤ NXDN_DATA_MAX_LENGTH := by
      have : NXDN_DATA_LENGTH * (blocks.length + 1)
          = NXDN_DATA_LENGTH * blocks.length + NXDN_DATA_LENGTH := by ring
      omega
    have hstep := processData_append h P b hd hl hroom1 hb
      (hctl b (List.mem_cons_self b blocks))
    show processBlocks (processData h b) blocks = _
    rw [hstep]
    have hPlen : (P ++ b.drop 1).length = P.length + NXDN_DATA_LENGTH := by
      rw [List.length_append, hbd]
    rw [ih _ (P ++ b.drop 1) (by simp only [hPlen]) (by simp only [hPlen])
      (by rw [hPlen]
          have : NXDN_DATA_LENGTH * (blocks.length + 1)
            = NXDN_DATA_LENGTH * blocks.length + NXDN_DATA_LENGTH := by ring
          omega)
      (fun c hc => hlen c (List.mem_cons_of_mem b hc))
      (fun c hc => hctl c (List.mem_cons_of_mem b hc))]
    have e : P.length + NXDN_DATA_LENGTH + NXDN_DATA_LENGTH * blocks.length
        = P.length + NXDN_DATA_LENGTH * (blocks.length + 1) := by ring
    simp only [hPlen, e, List.map_cons, List.flatten_cons, List.append_assoc, List.length_cons]

theorem flatten_drop_length (blocks : List (List Nat))
    (hlen : ∀ b ∈ blocks, b.length = NXDN_DATA_LENGTH + 1) :
    ((blocks.map (fun b => b.drop 1)).flatten).length = NXDN_DATA_LENGTH * blocks.length := by
  induction blocks with
  | nil => simp
  | cons b blocks ih =>
    have hb := hlen b (List.mem_cons_self b blocks)
    simp only [List.map_cons, List.flatten_cons, List.length_append, List.length_cons,
      List.length_drop, hb]
    rw [ih (fun c hc => hlen c (List.mem_cons_of_mem b hc))]
    simp only [NXDN_DATA_LENGTH]
    ring

/-! ## Sequences of calls -/

theorem validate_error {d : List Nat} {o : Outcome} (h : validate d = .error o) :
    ∀ line, o ≠ .written line := by
  unfold validate at h
  repeat' split at h
  all_goals simp only [Except.error.injEq, reduceCtorEq] at h
  all_goals subst h
  all_goals simp

/-- The line `processNMEA` writes starts with the source and the callsign of
the handler. -/
theorem processNMEA_written_form {h : CGPSHandler} {line : List Nat}
    (hw : processNMEA h = .written line) :
    (c_str h.m_source ++ bytes "-Y>APDPRS,NXDN*,qAR," ++ c_str h.m_callsign ++ bytes ":!")
      <+: line := by
  unfold processNMEA at hw
  cases hv : validate h.m_data with
  | error o =>
    rw [hv] at hw
    simp only at hw
    exact absurd hw (validate_error hv line)
  | ok pRMC =>
    rw [hv] at hw
    simp only at hw
    cases hf : formatOutput h.m_source h.m_callsign pRMC with
    | none => rw [hf] at hw; simp at hw
    | some text =>
      rw [hf] at hw
      simp only [writeOutput] at hw
      split at hw
      · simp only [Outcome.written.injEq] at hw
        subst hw
        unfold formatOutput at hf
        simp only at hf
        split at hf
        · split at hf
          · split at hf
            · simp only [Option.some.injEq] at hf
              rw [← hf]
              simp only [List.append_assoc]
              repeat apply List.prefix_append_right_inj _ |>.mpr
              exact List.prefix_append _ _
            · simp at hf
          · simp only [Option.some.injEq] at hf
            rw [← hf]
            simp only [List.append_assoc]
            repeat apply List.prefix_append_right_inj _ |>.mpr
            exact List.prefix_append _ _
        · simp only [Option.some.injEq] at hf
          rw [← hf]
          simp only [List.append_assoc]
          repeat apply List.prefix_append_right_inj _ |>.mpr
          exact List.prefix_append _ _
      · simp at hw

theorem run_append (h : CGPSHandler) (calls : List Call) (c : Call) :
    run h (calls ++ [c]) = step (run h calls) c := by
  simp [run, List.foldl_append]

theorem step_callsign (h : CGPSHandler) (c : Call) : (step h c).m_callsign = h.m_callsign := by
  cases c with
  | processHeader s => rfl
  | processData data =>
    simp only [step, processData]
    split
    · split <;> rfl
    · rfl
  | processEnd => rfl
  | clock ms => rfl

theorem run_callsign (h : CGPSHandler) (calls : List Call) :
    (run h calls).m_callsign = h.m_callsign := by
  induction calls generalizing h with
  | nil => rfl
  | cons c calls ih =>
    show (run (step h c) calls).m_callsign = _
    rw [ih, step_callsign]

theorem step_source (h : CGPSHandler) (c : Call) :
    (step h c).m_source =
      match c with
      | .processHeader source => source
      | .processData data => if data.get? 0 = some 0 then [] else h.m_source
      | .processEnd => []
      | .clock _ => h.m_source := by
  cases c with
  | processHeader s => rfl
  | processData data =>
    simp only [step, processData]
    split
    · split <;> rfl
    · rfl
  | processEnd => rfl
  | clock ms => rfl

theorem run_source (h : CGPSHandler) (calls : List Call) :
    (run h calls).m_source =
      calls.foldl
        (fun src c =>
          match c with
          | .processHeader source => source
          | .processData data => if data.get? 0 = some 0 then [] else src
          | .processEnd => []
          | .clock _ => src)
        h.m_source := by
  induction calls generalizing h with
  | nil => rfl
  | cons c calls ih =>
    show (run (step h c) calls).m_source = _
    rw [ih, step_source, List.foldl_cons]

/-- What `processData` does to the lines written. -/
theorem processData_writer (h : CGPSHandler) (data : List Nat) :
    (processData h data).m_writer = h.m_writer ∨
    ∃ line, (processData h data).m_writer = h.m_writer ++ [line] ∧
      (c_str h.m_source ++ bytes "-Y>APDPRS,NXDN*,qAR," ++ c_str h.m_callsign ++ bytes ":!")
        <+: line := by
  unfold processData
  simp only
  split
  · split
    · exact Or.inl rfl
    · rename_i line hw
      have hform := processNMEA_written_form hw
      exact Or.inr ⟨line, rfl, hform⟩
    · exact Or.inl rfl
  · exact Or.inl rfl

/-- `processNMEA` reads the array, the source and the callsign only. -/
theorem processNMEA_congr {h h2 : CGPSHandler} (hc : h.m_callsign = h2.m_callsign)
    (hd : h.m_data = h2.m_data) (hs : h.m_source = h2.m_source) :
    processNMEA h = processNMEA h2 := by
  unfold processNMEA
  rw [hc, hd, hs]

/-- Two handlers that agree on callsign, array, length and source take a block
the same way. -/
theorem processData_congr {h h2 : CGPSHandler} (data : List Nat)
    (hc : h.m_callsign = h2.m_callsign) (hd : h.m_data = h2.m_data)
    (hl : h.m_length = h2.m_length) (hs : h.m_source = h2.m_source) :
    (∃ lines, (processData h data).m_writer = h.m_writer ++ lines ∧
      (processData h2 data).m_writer = h2.m_writer ++ lines) ∧
    (processData h data).m_callsign = (processData h2 data).m_callsign ∧
    (processData h data).m_data = (processData h2 data).m_data ∧
    (processData h data).m_length = (processData h2 data).m_length ∧
    (processData h data).m_source = (processData h2 data).m_source := by
  have hn := @processNMEA_congr
    { h with
      m_data := memcpy h.m_data h.m_length ((data.drop 1).take NXDN_DATA_LENGTH),
      m_length := (h.m_length + NXDN_DATA_LENGTH) % 4294967296,
      undefinedBehaviour := h.undefinedBehaviour ||
        decide (h.m_data.length < h.m_length + NXDN_DATA_LENGTH) ||
        decide (data.length < NXDN_DATA_LENGTH + 1) }
    { h2 with
      m_data := memcpy h2.m_data h2.m_length ((data.drop 1).take NXDN_DATA_LENGTH),
      m_length := (h2.m_length + NXDN_DATA_LENGTH) % 4294967296,
      undefinedBehaviour := h2.undefinedBehaviour ||
        decide (h2.m_data.length < h2.m_length + NXDN_DATA_LENGTH) ||
        decide (data.length < NXDN_DATA_LENGTH + 1) }
    hc (by simp only [hd, hl]) hs
  unfold processData
  simp only
  rw [hn]
  split
  · split
    · exact ⟨⟨[], by simp [reset], by simp [reset]⟩, hc, rfl, rfl, rfl⟩
    · exact ⟨⟨[_], rfl, rfl⟩, hc, rfl, rfl, rfl⟩
    · exact ⟨⟨[], by simp [reset], by simp [reset]⟩, hc, rfl, rfl, rfl⟩
  · exact ⟨⟨[], by simp, by simp⟩, hc, by simp only [hd, hl], by simp only [hl], hs⟩

theorem processBlocks_congr (blocks : List (List Nat)) :
    ∀ (h h2 : CGPSHandler), h.m_callsign = h2.m_callsign → h.m_data = h2.m_data →
      h.m_length = h2.m_length → h.m_source = h2.m_source →
      (∃ lines, (processBlocks h blocks).m_writer = h.m_writer ++ lines ∧
        (processBlocks h2 blocks).m_writer = h2.m_writer ++ lines) ∧
      (processBlocks h blocks).m_data = (processBlocks h2 blocks).m_data ∧
      (processBlocks h blocks).m_length = (processBlocks h2 blocks).m_length ∧
      (processBlocks h blocks).m_source = (processBlocks h2 blocks).m_source := by
  induction blocks with
  | nil =>
    intro h h2 _ hd hl hs
    exact ⟨⟨[], by simp [processBlocks], by simp [processBlocks]⟩, hd, hl, hs⟩
  | cons b blocks ih =>
    intro h h2 hc hd hl hs
    obtain ⟨⟨l1, hw1, hw2⟩, hc1, hd1, hl1, hs1⟩ := processData_congr b hc hd hl hs
    obtain ⟨⟨l2, hv1, hv2⟩, hd2, hl2, hs2⟩ :=
      ih (processData h b) (processData h2 b) hc1 hd1 hl1 hs1
    refine ⟨⟨l1 ++ l2, ?_, ?_⟩, hd2, hl2, hs2⟩
    · show (processBlocks (processData h b) blocks).m_writer = _
      rw [hv1, hw1, List.append_assoc]
    · show (processBlocks (processData h2 b) blocks).m_writer = _
      rw [hv2, hw2, List.append_assoc]

theorem processData_length_le (h : CGPSHandler) (data : List Nat) :
    (processData h data).m_length ≤ h.m_length + NXDN_DATA_LENGTH := by
  unfold processData
  simp only
  split
  · split <;> simp [reset]
  · exact Nat.mod_le _ _

theorem processBlocks_length_le (blocks : List (List Nat)) :
    ∀ h : CGPSHandler,
      (processBlocks h blocks).m_length ≤ h.m_length + NXDN_DATA_LENGTH * blocks.length := by
  induction blocks with
  | nil => intro h; simp [processBlocks]
  | cons b blocks ih =>
    intro h
    have h1 := ih (processData h b)
    have h2 := processData_length_le h b
    show (processBlocks (processData h b) blocks).m_length ≤ _
    simp only [List.length_cons, Nat.mul_add, Nat.mul_one]
    omega

/-! ## Tokens -/

theorem skipDelims_spec (s : List Nat) :
    ∃ ds, (∀ b ∈ ds, isDelim b = true) ∧ s = ds ++ skipDelims s := by
  induction s with
  | nil => exact ⟨[], by simp, by simp [skipDelims]⟩
  | cons a s ih =>
    unfold skipDelims
    split
    · rename_i ha
      obtain ⟨ds, hds, hs⟩ := ih
      refine ⟨a :: ds, ?_, by rw [List.cons_append, ← hs]⟩
      intro b hb
      simp only [List.mem_cons] at hb
      rcases hb with hb | hb
      · rw [hb]; exact ha
      · exact hds b hb
    · exact ⟨[], by simp, by simp⟩

theorem takeToken_spec (s : List Nat) :
    (∀ b ∈ (takeToken s).1, isDelim b = false) ∧
    ((s = (takeToken s).1 ∧ (takeToken s).2 = []) ∨
      ∃ dl, isDelim dl = true ∧ s = (takeToken s).1 ++ dl :: (takeToken s).2) := by
  induction s with
  | nil => exact ⟨by simp [takeToken], Or.inl ⟨by simp [takeToken], by simp [takeToken]⟩⟩
  | cons a s ih =>
    unfold takeToken
    split
    · rename_i ha
      exact ⟨by simp, Or.inr ⟨a, ha, by simp⟩⟩
    · rename_i ha
      obtain ⟨h1, h2⟩ := ih
      refine ⟨?_, ?_⟩
      · intro b hb
        simp only [List.mem_cons] at hb
        rcases hb with hb | hb
        · rw [hb]; simpa using ha
        · exact h1 b hb
      · rcases h2 with ⟨hs, hr⟩ | ⟨dl, hdl, hs⟩
        · exact Or.inl ⟨by simp only; rw [← hs], hr⟩
        · exact Or.inr ⟨dl, hdl, by simp only [List.cons_append]; rw [← hs]⟩

/-- One call of `strtok`, in terms of the text: delimiters, the token, and
either the end of the text or one delimiter and the text left. -/
theorem strtok_spec {s t r : List Nat} (h : strtok s = some (t, r)) :
    ∃ ds, (∀ b ∈ ds, isDelim b = true) ∧ (∀ b ∈ t, isDelim b = false) ∧ t ≠ [] ∧
      ((s = ds ++ t ∧ r = []) ∨ ∃ dl, isDelim dl = true ∧ s = ds ++ t ++ dl :: r) := by
  have hne := strtok_token_ne_nil h
  obtain ⟨ds, hds, hs⟩ := skipDelims_spec s
  unfold strtok at h
  split at h
  · simp at h
  · rename_i b rest hsk
    simp only [Option.some.injEq] at h
    have hsp := takeToken_spec (b :: rest)
    rw [h] at hsp
    simp only at hsp
    rw [hsk] at hs
    refine ⟨ds, hds, hsp.1, hne, ?_⟩
    rcases hsp.2 with ⟨h1, h2⟩ | ⟨dl, hdl, h1⟩
    · exact Or.inl ⟨by rw [hs, h1], h2⟩
    · exact Or.inr ⟨dl, hdl, by rw [hs, h1, List.append_assoc]⟩

theorem strtok_none {s : List Nat} (h : strtok s = none) : ∀ b ∈ s, isDelim b = true := by
  obtain ⟨ds, hds, hs⟩ := skipDelims_spec s
  unfold strtok at h
  split at h
  · rename_i hsk
    rw [hsk, List.append_nil] at hs
    rw [hs]
    exact hds
  · simp at h

theorem first_occurrence {c : Nat} {l : List Nat} (h : c ∈ l) :
    ∃ a b, l = a ++ c :: b ∧ c ∉ a := by
  induction l with
  | nil => simp at h
  | cons x l ih =>
    by_cases hx : x = c
    · exact ⟨[], l, by simp [hx], by simp⟩
    · simp only [List.mem_cons] at h
      rcases h with h | h
      · exact absurd h.symm hx
      · obtain ⟨a, b, hl, ha⟩ := ih h
        refine ⟨x :: a, b, by simp [hl], ?_⟩
        simp only [List.mem_cons, not_or]
        exact ⟨fun hc => hx hc.symm, ha⟩

theorem first_occurrence_unique {c : Nat} {a b a2 b2 : List Nat}
    (h : a ++ c :: b = a2 ++ c :: b2) (ha : c ∉ a) (ha2 : c ∉ a2) : a = a2 ∧ b = b2 := by
  induction a generalizing a2 with
  | nil =>
    cases a2 with
    | nil => simpa using h
    | cons y a2 =>
      simp only [List.nil_append, List.cons_append, List.cons.injEq] at h
      exact absurd (by simp [h.1]) ha2
  | cons x a ih =>
    cases a2 with
    | nil =>
      simp only [List.nil_append, List.cons_append, List.cons.injEq] at h
      exact absurd (by simp [h.1]) ha
    | cons y a2 =>
      simp only [List.cons_append, List.cons.injEq] at h
      simp only [List.mem_cons, not_or] at ha ha2
      obtain ⟨e1, e2⟩ := ih h.2 ha.2 ha2.2
      exact ⟨by rw [h.1, e1], e2⟩

/-- The tokens of a text up to its first `*`: the ones in front of the token
that holds the `*` are cut from the bytes before the `*`, and all but the
first of them from the bytes behind the first byte. -/
theorem strtokLoop_before_star : ∀ (fuel : Nat) (pre post : List Nat), 42 ∉ pre →
    (pre ++ 42 :: post).length < fuel →
    ∃ init last rest, strtokLoop fuel (pre ++ 42 :: post) = init ++ last :: rest ∧ 42 ∈ last ∧
      (∀ t ∈ init, t <:+: pre) ∧ (∀ t ∈ init.tail, t <:+: pre.tail) := by
  intro fuel
  induction fuel with
  | zero => intro pre post _ hf; omega
  | succ fuel ih =>
    intro pre post hpre hf
    have hmem : 42 ∈ pre ++ 42 :: post := by simp
    unfold strtokLoop
    cases hst : strtok (pre ++ 42 :: post) with
    | none =>
      have := strtok_none hst 42 hmem
      exact absurd this (by decide)
    | some tr =>
      obtain ⟨t, r⟩ := tr
      simp only
      obtain ⟨ds, hds, ht, hne, hcase⟩ := strtok_spec hst
      have hds42 : 42 ∉ ds := fun hh => absurd (hds 42 hh) (by decide)
      by_cases ht42 : 42 ∈ t
      · exact ⟨[], t, strtokLoop fuel r, by simp, ht42, by simp, by simp⟩
      · rcases hcase with ⟨hs, _⟩ | ⟨dl, hdl, hs⟩
        · rw [hs] at hmem
          simp only [List.mem_append] at hmem
          rcases hmem with hm | hm
          · exact absurd hm hds42
          · exact absurd hm ht42
        · have hdl42 : dl ≠ 42 := fun hh => absurd (hh ▸ hdl) (by decide)
          have hr42 : 42 ∈ r := by
            rw [hs] at hmem
            simp only [List.mem_append, List.mem_cons] at hmem
            rcases hmem with (hm | hm) | hm | hm
            · exact absurd hm hds42
            · exact absurd hm ht42
            · exact absurd hm.symm hdl42
            · exact hm
          obtain ⟨r1, r2, hr, hr1⟩ := first_occurrence hr42
          have hfront : 42 ∉ ds ++ t ++ dl :: r1 := by
            simp only [List.mem_append, List.mem_cons, not_or]
            exact ⟨⟨hds42, ht42⟩, fun hh => hdl42 hh.symm, hr1⟩
          have hs2 : pre ++ 42 :: post = (ds ++ t ++ dl :: r1) ++ 42 :: r2 := by
            rw [hs, hr]; simp
          obtain ⟨epre, _⟩ := first_occurrence_unique hs2 hpre hfront
          have hlen := strtok_rest_length hst
          obtain ⟨init, last, rest, hloop, hlast, hinit, _⟩ :=
            ih r1 r2 hr1 (by rw [← hr]; omega)
          rw [hr, hloop]
          have hsuf : r1 <:+ pre := by
            rw [epre]
            exact ⟨ds ++ t ++ [dl], by simp⟩
          have hsuft : r1 <:+ pre.tail := by
            rw [epre]
            cases hdt : ds ++ t with
            | nil => simp [hne] at hdt
            | cons x xs => exact ⟨xs ++ [dl], by simp⟩
          refine ⟨t :: init, last, rest, by simp, hlast, ?_, ?_⟩
          · intro u hu
            simp only [List.mem_cons] at hu
            rcases hu with hu | hu
            · rw [hu, epre]
              exact ⟨ds, dl :: r1, by simp⟩
            · exact (hinit u hu).trans hsuf.isInfix
          · intro u hu
            simp only [List.tail_cons] at hu
            exact (hinit u hu).trans hsuft.isInfix

theorem cstring_append (a x : List Nat) (ha : ∀ b ∈ a, b ≠ 0) :
    cstring (a ++ x) = (cstring x).map (fun s => a ++ s) := by
  induction a with
  | nil => simp
  | cons b a ih =>
    have hb := ha b (List.mem_cons_self b a)
    rw [List.cons_append, cstring, if_neg hb,
      ih (fun c hc => ha c (List.mem_cons_of_mem b hc))]
    cases cstring x <;> simp

/-! ## Length of the output -/

/-- C1, as stated: the tag byte and the printed sentence are 69 bytes, which two
blocks of 20 payload bytes cannot carry, and four blocks do; the exclusive-or
of the bytes between `$` and `*` is 0x60, not the printed 0x6A, so `checkXOR`
fails and the writer receives no line, in four blocks as in two. -/
theorem scenario_printed_checksum_rejected :
    (NXDN_DATA_TYPE_GPS :: bytes printedSentence).length = 69 ∧
    (blocksOf 4 (NXDN_DATA_TYPE_GPS :: bytes printedSentence)).map (fun b => b.get? 0)
      = [some 1, some 1, some 1, some 0] ∧
    ((blocksOf 4 (NXDN_DATA_TYPE_GPS :: bytes printedSentence)).map (fun b => b.drop 1)).flatten
      = NXDN_DATA_TYPE_GPS :: bytes printedSentence ++ List.replicate 11 0 ∧
    sprintf_02X (xorLoop (((bytes printedSentence).drop 1).take 64) 0) = bytes "60" ∧
    processNMEA (handlerOf printedSentence) = .rejected .checksum ∧
    (scenario printedSentence 4).m_writer = [] ∧
    (scenario printedSentence 2).m_writer = [] := by
  decide

/-- C1, amended: with the checksum `60` of its bytes, the sentence of the
scenario, sent after the tag byte in four blocks of which the last is the
terminal one, makes the writer receive exactly the expected line. -/
theorem scenario_checked_sentence_written :
    ((blocksOf 4 (NXDN_DATA_TYPE_GPS :: bytes checkedSentence)).map (fun b => b.drop 1)).flatten
      = NXDN_DATA_TYPE_GPS :: bytes checkedSentence ++ List.replicate 11 0 ∧
    (blocksOf 4 (NXDN_DATA_TYPE_GPS :: bytes checkedSentence)).map (fun b => b.get? 0)
      = [some 1, some 1, some 1, some 0] ∧
    (scenario checkedSentence 4).m_writer = [expectedLine] := by
  decide

/-! ## The report -/

/-- C3, at the failing input: the latitude field (positional field 3) of
`emptyLatitudeSentence` is empty and the checksum is valid, yet `strtok` skips
the empty field, the later fields move one index down and a line is written
with `N` as latitude. -/
theorem empty_latitude_is_written :
    (positionalFields (bytes emptyLatitudeSentence)).get? 3 = some [] ∧
    checkXOR (bufferOf emptyLatitudeSentence) = some true ∧
    tokenize (bufferOf emptyLatitudeSentence) = some
      [bytes "$GPRMC", bytes "123456", bytes "A", bytes "N", bytes "01131.000", bytes "E",
       bytes "022.4", bytes "084.4", bytes "230394", bytes "003.1", bytes "W*7E"] ∧
    processNMEA (handlerOf emptyLatitudeSentence) = .written
      (bytes "ABC123-Y>APDPRS,NXDN*,qAR,W1AW:!N01131.000/E022.4r230394/084 via MMDVM") ∧
    (scenario emptyLatitudeSentence 4).m_writer =
      [bytes "ABC123-Y>APDPRS,NXDN*,qAR,W1AW:!N01131.000/E022.4r230394/084 via MMDVM"] := by
  decide

/-- C4, at the failing inputs: `voidFixSentence` has a valid checksum, status
field (positional field 2) `V` and fields 3 to 6 not empty, and a line is
written, because the empty time field makes the latitude field `A` token 2;
`emptyTimeSentence` has status field `A` and is rejected as not valid, because
token 2 is its latitude. -/
theorem void_fix_is_written :
    (positionalFields (bytes voidFixSentence)).get? 2 = some (bytes "V") ∧
    (positionalFields (bytes voidFixSentence)).drop 3 =
      [bytes "A", bytes "N", bytes "01131.000", bytes "E", bytes "022.4", bytes "084.4*77"] ∧
    checkXOR (bufferOf voidFixSentence) = some true ∧
    processNMEA (handlerOf voidFixSentence) = .written
      (bytes "ABC123-Y>APDPRS,NXDN*,qAR,W1AW:!N01131.000/E022.4r via MMDVM") ∧
    (scenario voidFixSentence 3).m_writer =
      [bytes "ABC123-Y>APDPRS,NXDN*,qAR,W1AW:!N01131.000/E022.4r via MMDVM"] ∧
    (positionalFields (bytes emptyTimeSentence)).get? 2 = some (bytes "A") ∧
    ((positionalFields (bytes emptyTimeSentence)).drop 3).take 4 =
      [bytes "4807.038", bytes "N", bytes "01131.000", bytes "E"] ∧
    checkXOR (bufferOf emptyTimeSentence) = some true ∧
    processNMEA (handlerOf emptyTimeSentence) = .rejected .notValid ∧
    (scenario emptyTimeSentence 4).m_writer = [] := by
  decide

/-- C5, at the failing input: the speed field (positional field 7) of
`emptySpeedSentence` is empty, the sentence is accepted, and the line carries
`r230394/084`: the bearing field is read as speed and the date as bearing. -/
theorem empty_speed_is_written :
    (positionalFields (bytes emptySpeedSentence)).get? 7 = some [] ∧
    (positionalFields (bytes emptySpeedSentence)).get? 2 = some (bytes "A") ∧
    ((positionalFields (bytes emptySpeedSentence)).drop 3).take 4 =
      [bytes "4807.038", bytes "N", bytes "01131.000", bytes "E"] ∧
    checkXOR (bufferOf emptySpeedSentence) = some true ∧
    processNMEA (handlerOf emptySpeedSentence) = .written
      (bytes "ABC123-Y>APDPRS,NXDN*,qAR,W1AW:!4807.038N/01131.000Er230394/084 via MMDVM") ∧
    (scenario emptySpeedSentence 4).m_writer =
      [bytes "ABC123-Y>APDPRS,NXDN*,qAR,W1AW:!4807.038N/01131.000Er230394/084 via MMDVM"] := by
  decide

/-- C7: on an array of bytes that has passed the tag check, the `$G` check and
the search for `*` (found at index `star`), with two more bytes inside the
array, the first `$` is at index 1, the first `*` is at `star` with neither a
`*` nor a NUL between them, and `checkXOR` returns true exactly when the two
bytes after the `*` are the two upper-case hexadecimal digits of the
exclusive-or of the bytes strictly between `$` and `*`; when that number has a
letter digit and the two bytes are its lower-case digits, `checkXOR` returns
false. -/
theorem checkXOR_is_upper_hex_of_xor (d : List Nat) (star : Nat)
    (hbyte : ∀ b ∈ d, b < 256)
    (htag : d.take 1 = [NXDN_DATA_TYPE_GPS]) (hG : (d.drop 1).take 2 = bytes "$G")
    (hstar : strchr (d.drop 1) 42 1 = some (some star))
    (hroom : star + 2 < d.length) :
    strchr d 36 0 = some (some 1) ∧ strchr d 42 0 = some (some star) ∧
    d.get? star = some 42 ∧
    (∀ i, 1 ≤ i → i < star → d.get? i ≠ some 42 ∧ d.get? i ≠ some 0) ∧
    checkXOR d = some (decide ((d.drop (star + 1)).take 2 =
      hexRendering upperHexDigits (xorAll ((d.drop 2).take (star - 2))))) ∧
    ((10 ≤ xorAll ((d.drop 2).take (star - 2)) / 16 ∨
        10 ≤ xorAll ((d.drop 2).take (star - 2)) % 16) →
      (d.drop (star + 1)).take 2 =
        hexRendering lowerHexDigits (xorAll ((d.drop 2).take (star - 2))) →
      checkXOR d = some false) := by
  obtain ⟨mid, post, hd, hs, hmid, _⟩ := front_decomp htag hG hstar
  subst hd hs
  have hmidlt : ∀ b ∈ mid, b < 256 := fun b hb =>
    hbyte b (by simp [hb])
  have hx : xorLoop mid 0 = xorAll mid := by
    rw [xorLoop_eq mid 0 (by norm_num), Nat.zero_xor, Nat.mod_eq_of_lt (xorAll_lt mid hmidlt)]
  have hmidtake : (List.drop 2 (6 :: 36 :: (mid ++ 42 :: post))).take (2 + mid.length - 2) = mid := by
    simp
  have hpost : List.drop (2 + mid.length + 1) (6 :: 36 :: (mid ++ 42 :: post)) = post := by
    have e : 2 + mid.length + 1 = (mid.length + 1) + 1 + 1 := by omega
    rw [e, List.drop_succ_cons, List.drop_succ_cons, List.drop_append_eq_append_drop]
    simp
  have hck := checkXOR_normal 6 mid post (by decide) hmid
  rw [hmidtake, hpost]
  simp only [List.length_cons, List.length_append] at hroom
  match post, hroom, hck with
  | c1 :: c2 :: post2, _, hck =>
    simp only at hck
    rw [hx, sprintf_02X_upper _ (xorAll_lt mid hmidlt)] at hck
    have hck2 : checkXOR (6 :: 36 :: (mid ++ 42 :: c1 :: c2 :: post2)) =
        some (decide ([c1, c2] = hexRendering upperHexDigits (xorAll mid))) := by
      rw [hck]
      congr 1
      exact decide_eq_decide.mpr eq_comm
    refine ⟨by simp [strchr], ?_, ?_, ?_, ?_, ?_⟩
    · rw [strchr, if_neg (by decide), if_neg (by decide), strchr, if_neg (by decide),
        if_neg (by decide)]
      exact strchr_append mid _ 42 2 hmid
    · have e : 2 + mid.length = mid.length + 1 + 1 := by omega
      rw [e, List.get?_cons_succ, List.get?_cons_succ, List.get?_eq_getElem?,
        List.getElem?_append_right (by omega)]
      simp
    · intro i h1 h2
      exact get?_in_mid 6 mid _ i h1 h2 hmid
    · simpa using hck2
    · intro hletter hlow
      rw [hck2]
      simp only [List.take_succ_cons, List.take_zero] at hlow
      rw [hlow]
      simp only [Option.some.injEq, decide_eq_false_iff_not]
      exact lower_ne_upper _ (xorAll_lt mid hmidlt) hletter
  | [], hroom, _ => simp at hroom; omega
  | [_], hroom, _ => simp at hroom; omega

/-- The theorem at the array of `checkedSentence`, whose `*` is at index 66. -/
theorem checkXOR_is_upper_hex_of_xor_witness :
    strchr ((bufferOf checkedSentence).drop 1) 42 1 = some (some 66) ∧
    checkXOR (bufferOf checkedSentence) = some (decide
      (((bufferOf checkedSentence).drop (66 + 1)).take 2 = hexRendering upperHexDigits
        (xorAll (((bufferOf checkedSentence).drop 2).take (66 - 2))))) :=
  ⟨by decide,
   (checkXOR_is_upper_hex_of_xor (bufferOf checkedSentence) 66 (by decide) (by decide)
      (by decide) (by decide) (by decide)).2.2.2.2.1⟩

/-! ## Bit flips -/

/-- C8, as stated: `flipSentence` is accepted and written; its `*` is at index
69 and the `.` of its latitude at index 24, strictly between `$` and `*`.
Flipping bit 2 of that byte turns it into `*`: the checksum is now read from
the digits `03` that follow, which are the exclusive-or of the bytes before
them, and the flipped sentence is accepted and written with the latitude
`4807*038`. -/
theorem bit_flip_into_star_accepted :
    processNMEA (handlerOf flipSentence) = .written
      (bytes "ABC123-Y>APDPRS,NXDN*,qAR,W1AW:!4807.038N/01131.000Er084/022 via MMDVM") ∧
    strchr ((bufferOf flipSentence).drop 1) 42 1 = some (some 69) ∧
    flipBit (bufferOf flipSentence) 24 2 = bufferOf flippedSentence ∧
    processNMEA { handlerOf flipSentence with m_data := flipBit (bufferOf flipSentence) 24 2 }
      = .written
      (bytes "ABC123-Y>APDPRS,NXDN*,qAR,W1AW:!4807*038N/01131.000Er084/022 via MMDVM") ∧
    (scenario flippedSentence 4).m_writer =
      [bytes "ABC123-Y>APDPRS,NXDN*,qAR,W1AW:!4807*038N/01131.000Er084/022 via MMDVM"] := by
  decide

/-- C8, amended: when validation accepts the array, flipping one of the 8 bits
of a byte strictly between the `$` at index 1 and the first `*` makes
`processNMEA` reject it, provided the flipped byte is not a `*` itself. -/
theorem single_bit_flip_rejected (h : CGPSHandler) (pRMC : List (List Nat)) (star i bit : Nat)
    (hv : validate h.m_data = .ok pRMC)
    (hstar : strchr (h.m_data.drop 1) 42 1 = some (some star))
    (hi1 : 1 < i) (hi2 : i < star) (hbit : bit < 8)
    (hnot : (flipBit h.m_data i bit).get? i ≠ some 42) :
    ∃ r, processNMEA { h with m_data := flipBit h.m_data i bit } = .rejected r := by
  obtain ⟨htag, hG, _, hx, _⟩ := validate_ok hv
  obtain ⟨mid, post, hd, hs, hmid, _⟩ := front_decomp htag hG hstar
  obtain ⟨j, rfl⟩ : ∃ j, i = j + 2 := ⟨i - 2, by omega⟩
  have hj : j < mid.length := by omega
  rw [hd] at hx hnot ⊢
  rw [flipBit_mid mid post j bit hj] at hnot ⊢
  have hx2 := checkXOR_normal 6 mid post (by decide) hmid
  rw [hx] at hx2
  have hnot2 : mid.getD j 0 ^^^ 2 ^ bit ≠ 42 := by
    intro h42
    apply hnot
    rw [List.get?_cons_succ, List.get?_cons_succ, List.get?_eq_getElem?,
      List.getElem?_append_left (by simpa using hj), List.getElem?_set_self (by simpa using hj), h42]
  suffices hval : ∃ r, validate (6 :: 36 :: (mid.set j (mid.getD j 0 ^^^ 2 ^ bit) ++ 42 :: post))
      = .error (.rejected r) by
    obtain ⟨r, hr⟩ := hval
    exact ⟨r, processNMEA_of_error hr⟩
  by_cases h0 : mid.getD j 0 ^^^ 2 ^ bit = 0
  · apply validate_noStar
    rw [h0, List.set_eq_take_append_cons_drop, if_pos hj, List.drop_succ_cons, List.drop_zero,
      List.append_assoc, List.cons_append, ← List.cons_append]
    apply strchr_nul _ _ 42 1 (by decide)
    intro b hb
    simp only [List.mem_cons] at hb
    rcases hb with hb | hb
    · rw [hb]; decide
    · exact (hmid b (List.mem_of_mem_take hb)).1
  · have hmid2 : ∀ b ∈ mid.set j (mid.getD j 0 ^^^ 2 ^ bit), b ≠ 42 ∧ b ≠ 0 := by
      intro b hb
      rcases List.mem_or_eq_of_mem_set hb with hb | hb
      · exact hmid b hb
      · rw [hb]; exact ⟨hnot2, h0⟩
    have hstar2 : strchr ((6 :: 36 :: (mid.set j (mid.getD j 0 ^^^ 2 ^ bit) ++ 42 :: post)).drop 1)
        42 1 = some (some (1 + (mid.set j (mid.getD j 0 ^^^ 2 ^ bit)).length + 1)) := by
      rw [List.drop_succ_cons, List.drop_zero, ← List.cons_append]
      have := strchr_append (36 :: mid.set j (mid.getD j 0 ^^^ 2 ^ bit)) post 42 1 (by
        intro b hb
        simp only [List.mem_cons] at hb
        rcases hb with hb | hb
        · rw [hb]; decide
        · exact hmid2 b hb)
      rw [this, List.length_cons, Nat.add_assoc]
    apply validate_checksum hstar2
    rw [checkXOR_normal 6 _ post (by decide) hmid2]
    match post, hx2 with
    | c1 :: c2 :: post2, hx2 =>
      simp only [Option.some.injEq, true_eq_decide_iff] at hx2
      simp only [Option.some.injEq, decide_eq_false_iff_not]
      intro hnew
      have hlt : ∀ l, xorLoop l 0 < 256 := fun l => by
        rw [xorLoop_eq l 0 (by norm_num)]
        exact Nat.mod_lt _ (by norm_num)
      exact xorLoop_flip mid j bit hj hbit (sprintf_02X_inj (hlt _) (hlt _) (hnew.trans hx2.symm))
    | [], hx2 => simp at hx2
    | [_], hx2 => simp at hx2

/-- The theorem at `checkedSentence`, bit 0 of the byte at index 10. -/
theorem single_bit_flip_rejected_witness :
    ∃ r, processNMEA { handlerOf checkedSentence with
      m_data := flipBit (handlerOf checkedSentence).m_data 10 0 } = .rejected r :=
  single_bit_flip_rejected (handlerOf checkedSentence)
    [bytes "$GPRMC", bytes "123456", bytes "A", bytes "4807.038", bytes "N",
     bytes "01131.000", bytes "E", bytes "022.4", bytes "084.4", bytes "230394",
     bytes "003.1", bytes "W*60"]
    66 10 0 (by rfl) (by decide) (by decide) (by decide) (by decide) (by decide)

/-! ## Rejections -/

/-- C9: when byte 0 of the array is not the tag 0x06, or bytes 1 and 2 are not
`$G`, or every `*` from index 1 on lies behind a NUL (the text has no `*`), or
`checkXOR` does not return true, or bytes 4 to 6 are not `RMC`, then
`processNMEA` returns at one of its rejections, or a scan leaves the array; it
never writes a line. -/
theorem structural_rejections_write_nothing (h : CGPSHandler)
    (hfail : h.m_data.take 1 ≠ [NXDN_DATA_TYPE_GPS] ∨
      (h.m_data.drop 1).take 2 ≠ bytes "$G" ∨
      (∀ i, 1 ≤ i → h.m_data.get? i = some 42 →
        ∃ j, 1 ≤ j ∧ j < i ∧ h.m_data.get? j = some 0) ∨
      checkXOR h.m_data ≠ some true ∨
      (h.m_data.drop 4).take 3 ≠ bytes "RMC") :
    ((∃ r, processNMEA h = .rejected r) ∨ processNMEA h = .undefined .read) ∧
    ∀ line, processNMEA h ≠ .written line := by
  have hns : ¬ (h.m_data.take 1 = [NXDN_DATA_TYPE_GPS] ∧ (h.m_data.drop 1).take 2 = bytes "$G" ∧
      (∃ star, strchr (h.m_data.drop 1) 42 1 = some (some star)) ∧
      checkXOR h.m_data = some true ∧ (h.m_data.drop 4).take 3 = bytes "RMC") := by
    rintro ⟨h1, h2, ⟨star, hstar⟩, hx, h5⟩
    rcases hfail with hf | hf | hf | hf | hf
    · exact hf h1
    · exact hf h2
    · obtain ⟨hs1, hs2, hs3⟩ := strchr_star hstar
      obtain ⟨j, hj1, hj2, hj3⟩ := hf star hs1 hs2
      exact hs3 j hj1 hj2 hj3
    · exact hf hx
    · exact hf h5
  have hcases := validate_structural hns
  rcases hcases with ⟨r, hr⟩ | hr
  · rw [processNMEA_of_error hr]
    exact ⟨Or.inl ⟨r, rfl⟩, fun line => by simp⟩
  · rw [processNMEA_of_error hr]
    exact ⟨Or.inr rfl, fun line => by simp⟩

/-- The theorem at `ggaSentence`, whose checksum is valid. -/
theorem structural_rejections_write_nothing_witness :
    checkXOR (bufferOf ggaSentence) = some true ∧
    processNMEA (handlerOf ggaSentence) = .rejected .unhandled ∧
    ∀ line, processNMEA (handlerOf ggaSentence) ≠ .written line :=
  ⟨by decide, by decide,
   (structural_rejections_write_nothing (handlerOf ggaSentence)
      (Or.inr (Or.inr (Or.inr (Or.inr (by decide)))))).2⟩

/-! ## Reassembly is concatenation -/

/-- C10: after `processHeader(s)` and `processData` on at most 16 blocks of 21
bytes whose control byte is not 0x00, the array holds the bytes 1..20 of the
blocks, in order, followed by zeros; these are 20 bytes a block, `m_length` is
that number, the source is `s`, no line has been written and no call has left
defined behaviour. -/
theorem reassembly_is_concatenation (h : CGPSHandler) (s : List Nat) (blocks : List (List Nat))
    (hk : blocks.length ≤ 16)
    (hlen : ∀ b ∈ blocks, b.length = NXDN_DATA_LENGTH + 1)
    (hctl : ∀ b ∈ blocks, b.get? 0 ≠ some 0) :
    (processBlocks (processHeader h s) blocks).m_data =
      (blocks.map (fun b => b.drop 1)).flatten ++
        List.replicate (NXDN_DATA_MAX_LENGTH - NXDN_DATA_LENGTH * blocks.length) 0 ∧
    ((blocks.map (fun b => b.drop 1)).flatten).length = NXDN_DATA_LENGTH * blocks.length ∧
    (processBlocks (processHeader h s) blocks).m_length = NXDN_DATA_LENGTH * blocks.length ∧
    (processBlocks (processHeader h s) blocks).m_source = s ∧
    (processBlocks (processHeader h s) blocks).m_writer = h.m_writer ∧
    (processBlocks (processHeader h s) blocks).undefinedBehaviour = h.undefinedBehaviour := by
  have hrun := processBlocks_append blocks (processHeader h s) []
    (by simp [processHeader, reset]) (by simp [processHeader, reset])
    (by simp only [List.length_nil, NXDN_DATA_MAX_LENGTH, NXDN_DATA_LENGTH]; omega) hlen hctl
  rw [hrun]
  simp only [List.nil_append, List.length_nil, Nat.zero_add, processHeader, reset, true_and,
    and_true]
  exact flatten_drop_length blocks hlen

/-- The theorem at the first three blocks of the end-to-end scenario. -/
theorem reassembly_is_concatenation_witness :
    (processBlocks (processHeader (construct (bytes "W1AW")) (bytes "ABC123"))
      ((blocksOf 4 (NXDN_DATA_TYPE_GPS :: bytes checkedSentence)).take 3)).m_data =
      (NXDN_DATA_TYPE_GPS :: bytes checkedSentence).take 60 ++ List.replicate 260 0 :=
  (reassembly_is_concatenation (construct (bytes "W1AW")) (bytes "ABC123")
    ((blocksOf 4 (NXDN_DATA_TYPE_GPS :: bytes checkedSentence)).take 3)
    (by decide) (by decide) (by decide)).1.trans (by decide)

/-! ## Capacity of the array -/

/-- C11, at the failing input: after a header and 16 blocks that are not
terminal the array is full (`m_length` is 320, all in defined behaviour); the
17th block is copied at offset 320, the end of the array, `m_length` becomes
340 and the call has left defined behaviour. -/
theorem seventeenth_block_overruns :
    (run (construct (bytes "W1AW"))
      (.processHeader (bytes "ABC123") :: List.replicate 16 (.processData fillerBlock))).m_length
      = NXDN_DATA_MAX_LENGTH ∧
    (run (construct (bytes "W1AW"))
      (.processHeader (bytes "ABC123") :: List.replicate 16 (.processData fillerBlock))
      ).undefinedBehaviour = false ∧
    (run (construct (bytes "W1AW"))
      (.processHeader (bytes "ABC123") :: List.replicate 17 (.processData fillerBlock))).m_length
      = 340 ∧
    NXDN_DATA_MAX_LENGTH = 320 ∧
    (run (construct (bytes "W1AW"))
      (.processHeader (bytes "ABC123") :: List.replicate 17 (.processData fillerBlock))
      ).undefinedBehaviour = true := by
  decide

/-! ## Reset -/

/-- C12: from every state, a block whose control byte is the terminal 0x00
leaves `m_length` 0, the source empty and the array zero, whatever
`processNMEA` did with the sentence; so does `processEnd`. -/
theorem reset_property (h : CGPSHandler) (data : List Nat) (hterm : data.get? 0 = some 0) :
    (processData h data).m_length = 0 ∧ (processData h data).m_source = [] ∧
    (processData h data).m_data = List.replicate NXDN_DATA_MAX_LENGTH 0 ∧
    (processEnd h).m_length = 0 ∧ (processEnd h).m_source = [] ∧
    (processEnd h).m_data = List.replicate NXDN_DATA_MAX_LENGTH 0 ∧
    (∀ b ∈ (processData h data).m_data, b = 0) ∧ (∀ b ∈ (processEnd h).m_data, b = 0) := by
  have hd : (processData h data).m_length = 0 ∧ (processData h data).m_source = [] ∧
      (processData h data).m_data = List.replicate NXDN_DATA_MAX_LENGTH 0 := by
    unfold processData
    simp only [hterm, if_true]
    split <;> exact ⟨rfl, rfl, rfl⟩
  refine ⟨hd.1, hd.2.1, hd.2.2, rfl, rfl, rfl, ?_, ?_⟩
  · rw [hd.2.2]
    intro b hb
    exact (List.mem_replicate.mp hb).2
  · intro b hb
    exact (List.mem_replicate.mp hb).2

/-- The theorem at the handler that holds `checkedSentence` and a terminal block
of zeros. -/
theorem reset_property_witness :
    (processData (handlerOf checkedSentence) (0 :: List.replicate 20 0)).m_length = 0 :=
  (reset_property (handlerOf checkedSentence) (0 :: List.replicate 20 0) (by decide)).1

/-! ## The output buffer -/

/-- C13, at the failing input: `longLatitudeSentence` fills 301 bytes of the
array and passes validation; with source `ABC123` and callsign `W1AW` the
text `sprintf` formats has 330 bytes, more than the 300 of `output`, and
`processNMEA` leaves defined behaviour, also in the run of 16 blocks. -/
theorem long_latitude_overruns_output :
    (bufferOf longLatitudeSentence).length = NXDN_DATA_MAX_LENGTH ∧
    validate (bufferOf longLatitudeSentence) = .ok
      [bytes "$GPRMC", bytes "1", bytes "A", List.replicate 280 49, bytes "N", bytes "3",
       bytes "E*03"] ∧
    processNMEA (handlerOf longLatitudeSentence) = .undefined (.output
      (bytes "ABC123-Y>APDPRS,NXDN*,qAR,W1AW:!" ++ List.replicate 280 49 ++
        bytes "N/3E*03r via MMDVM")) ∧
    (bytes "ABC123-Y>APDPRS,NXDN*,qAR,W1AW:!" ++ List.replicate 280 49 ++
      bytes "N/3E*03r via MMDVM").length = 330 ∧
    OUTPUT_SIZE = 300 ∧
    (scenario longLatitudeSentence 16).m_writer = [] ∧
    (scenario longLatitudeSentence 16).undefinedBehaviour = true := by
  refine ⟨by decide, by rfl, by decide, by decide, by decide, by decide, by decide⟩

/-! ## The checksum example -/

/-- C14, as stated: the exclusive-or of the bytes of `GPRMC,A,1,2` is 0x25, not
0x58, and `checkXOR` rejects `$GPRMC,A,1,2*58`. -/
theorem printed_example_rejected :
    xorAll (bytes "GPRMC,A,1,2") = 0x25 ∧
    xorAll (bytes "GPRMC,A,1,2") ≠ 0x58 ∧
    checkXOR (bufferOf printedExample) = some false ∧
    processNMEA (handlerOf printedExample) = .rejected .checksum := by
  decide

/-- C14, amended: the exclusive-or of the bytes of `GPRMC,A,1,2` is 0x25 and
`checkXOR` accepts `$GPRMC,A,1,2*25`, placed after the tag byte in a zeroed
array. -/
theorem checked_example_accepted :
    xorAll (bytes "GPRMC,A,1,2") = 0x25 ∧
    bufferOf checkedExample =
      NXDN_DATA_TYPE_GPS :: bytes "$GPRMC,A,1,2*25" ++ List.replicate 304 0 ∧
    checkXOR (bufferOf checkedExample) = some true := by
  decide

/-! ## Width of the bearing and speed clause -/

/-- C16, as stated: on a new handler of station `W1AW` the four blocks of the
end-to-end scenario, with no `processHeader` call before them, make the
writer receive a line whose source is empty. -/
theorem report_without_header :
    establishedSource
      ((blocksOf 4 (NXDN_DATA_TYPE_GPS :: bytes checkedSentence)).map Call.processData) = [] ∧
    (run (construct (bytes "W1AW"))
      ((blocksOf 4 (NXDN_DATA_TYPE_GPS :: bytes checkedSentence)).map Call.processData)).m_writer
      = [bytes "-Y>APDPRS,NXDN*,qAR,W1AW:!4807.038N/01131.000Er084/022 via MMDVM"] := by
  decide

/-- C16, amended: in every sequence of calls on a new handler, a call either
leaves the lines written as they are or adds exactly one line, and that line
starts with the source the calls before it have established (that of the last
`processHeader` since the last reset, the empty one when there was none),
followed by `-Y>APDPRS,NXDN*,qAR,`, the callsign and `:!`. -/
theorem written_reports_use_established_source (callsign : List Nat) (calls : List Call)
    (c : Call) :
    (run (construct callsign) (calls ++ [c])).m_writer = (run (construct callsign) calls).m_writer ∨
    ∃ rest, (run (construct callsign) (calls ++ [c])).m_writer =
      (run (construct callsign) calls).m_writer ++
        [c_str (establishedSource calls) ++ bytes "-Y>APDPRS,NXDN*,qAR," ++ c_str callsign ++
          bytes ":!" ++ rest] := by
  rw [run_append]
  cases c with
  | processHeader s => exact Or.inl rfl
  | processEnd => exact Or.inl rfl
  | clock ms => exact Or.inl rfl
  | processData data =>
    rcases processData_writer (run (construct callsign) calls) data with hsame | ⟨line, hl, hp⟩
    · exact Or.inl hsame
    · obtain ⟨rest, hrest⟩ := hp
      refine Or.inr ⟨rest, ?_⟩
      show (processData _ data).m_writer = _
      rw [hl, ← hrest, run_source, run_callsign]
      rfl

/-! ## The token array -/

/-- C17, at the failing input: `manyFieldsSentence` passes the tag, `$G`, `*`,
checksum and `RMC` checks and the `strtok` loop finds 21 tokens, one more than
`pRMC` has entries: `processNMEA` leaves defined behaviour. -/
theorem twenty_one_tokens :
    (bufferOf manyFieldsSentence).take 1 = [NXDN_DATA_TYPE_GPS] ∧
    ((bufferOf manyFieldsSentence).drop 1).take 2 = bytes "$G" ∧
    strchr ((bufferOf manyFieldsSentence).drop 1) 42 1 = some (some 57) ∧
    checkXOR (bufferOf manyFieldsSentence) = some true ∧
    ((bufferOf manyFieldsSentence).drop 4).take 3 = bytes "RMC" ∧
    (tokenize (bufferOf manyFieldsSentence)).map List.length = some 21 ∧
    PRMC_SIZE = 20 ∧
    processNMEA (handlerOf manyFieldsSentence) = .undefined .tokens ∧
    (scenario manyFieldsSentence 4).undefinedBehaviour = true := by
  decide

/-! ## Tokens and the checksum -/

/-- C18, as stated: `earlyChecksumSentence` passes validation with its `*` at
index 7, so that the checksum covers `GPRMC` alone, and every token of the
report lies behind the `*`; `noSpeedSentence` passes validation and the `*`
and the checksum digits are written as part of the longitude hemisphere. -/
theorem fields_behind_the_checksum :
    strchr ((bufferOf earlyChecksumSentence).drop 1) 42 1 = some (some 7) ∧
    tokenize (bufferOf earlyChecksumSentence) = some
      [bytes "$GPRMC*4B", bytes "123456", bytes "A", bytes "4807.038", bytes "N",
       bytes "01131.000", bytes "E", bytes "022.4", bytes "084.4"] ∧
    (scenario earlyChecksumSentence 3).m_writer =
      [bytes "ABC123-Y>APDPRS,NXDN*,qAR,W1AW:!4807.038N/01131.000Er084/022 via MMDVM"] ∧
    tokenize (bufferOf noSpeedSentence) = some
      [bytes "$GPRMC", bytes "123456", bytes "A", bytes "4807.038", bytes "N",
       bytes "01131.000", bytes "E*34"] ∧
    (scenario noSpeedSentence 3).m_writer =
      [bytes "ABC123-Y>APDPRS,NXDN*,qAR,W1AW:!4807.038N/01131.000E*34r via MMDVM"] := by
  decide

/-- C18, amended: when validation accepts, a token of index 1 or more that
comes before the token holding the first `*` (no token up to it contains a
`*`) is cut from the bytes strictly between the `$` and the first `*`. -/
theorem tokens_before_star_are_covered (h : CGPSHandler) (pRMC : List (List Nat))
    (star i : Nat) (t : List Nat)
    (hv : validate h.m_data = .ok pRMC)
    (hstar : strchr (h.m_data.drop 1) 42 1 = some (some star))
    (hi : 1 ≤ i) (ht : pRMC.get? i = some t)
    (hbefore : ∀ j u, j ≤ i → pRMC.get? j = some u → 42 ∉ u) :
    t <:+: (h.m_data.drop 2).take (star - 2) ∧ 42 ∉ t := by
  obtain ⟨htag, hG, _, _, _, htok, _⟩ := validate_ok hv
  obtain ⟨mid, post, hd, hs, hmid, _⟩ := front_decomp htag hG hstar
  have hmidtake : (h.m_data.drop 2).take (star - 2) = mid := by
    rw [hd, hs]; simp
  rw [hmidtake]
  refine ⟨?_, hbefore i t (Nat.le_refl i) ht⟩
  -- the text the loop cuts
  unfold tokenize at htok
  rw [hd, List.drop_succ_cons, List.drop_zero, ← List.cons_append,
    cstring_append (36 :: mid) (42 :: post) (by
      intro b hb
      simp only [List.mem_cons] at hb
      rcases hb with hb | hb
      · rw [hb]; decide
      · exact (hmid b hb).2)] at htok
  have h42 : cstring (42 :: post) = (cstring post).map (fun s => 42 :: s) := by
    rw [cstring, if_neg (by decide)]
  rw [h42] at htok
  cases hpost : cstring post with
  | none => rw [hpost] at htok; simp at htok
  | some post1 =>
    rw [hpost] at htok
    simp only [Option.map_some', Option.some.injEq] at htok
    have hpre : 42 ∉ 36 :: mid := by
      simp only [List.mem_cons, not_or]
      exact ⟨by decide, fun hh => (hmid 42 hh).1 rfl⟩
    obtain ⟨init, last, rest, hloop, hlast, _, htail⟩ :=
      strtokLoop_before_star ((36 :: mid ++ 42 :: post1).length + 1) (36 :: mid) post1 hpre
        (by omega)
    rw [hloop] at htok
    have hlt : i < init.length := by
      by_contra hge
      have hl : pRMC.get? init.length = some last := by
        rw [← htok, List.get?_eq_getElem?, List.getElem?_append_right (Nat.le_refl _)]
        simp
      exact hbefore init.length last (by omega) hl hlast
    have hti : init.get? i = some t := by
      rw [← htok, List.get?_eq_getElem?, List.getElem?_append_left hlt] at ht
      rw [List.get?_eq_getElem?]
      exact ht
    have hmem : t ∈ init.tail := by
      cases init with
      | nil => simp at hlt
      | cons a init2 =>
        obtain ⟨k, rfl⟩ : ∃ k, i = k + 1 := ⟨i - 1, by omega⟩
        rw [List.get?_cons_succ] at hti
        exact List.get?_mem hti
    exact htail t hmem

/-- The theorem at the latitude token of `checkedSentence`. -/
theorem tokens_before_star_are_covered_witness :
    bytes "4807.038" <:+: ((handlerOf checkedSentence).m_data.drop 2).take (66 - 2) ∧
    42 ∉ bytes "4807.038" :=
  tokens_before_star_are_covered (handlerOf checkedSentence)
    [bytes "$GPRMC", bytes "123456", bytes "A", bytes "4807.038", bytes "N",
     bytes "01131.000", bytes "E", bytes "022.4", bytes "084.4", bytes "230394",
     bytes "003.1", bytes "W*60"]
    66 3 (bytes "4807.038") (by rfl) (by decide) (by decide) (by decide)
    (by
      intro j u hj hu
      interval_cases j <;> simp only [List.get?_cons_succ, List.get?_cons_zero,
        Option.some.injEq] at hu <;> subst hu <;> decide)

/-! ## Acceptance -/

/-- C20: two handlers with the same callsign, whatever their array, length,
source and lines written, add the same lines and end with the same array,
length and source when both get `processHeader(s)` and the same blocks, at
most 16 of them; the length stays within the array. -/
theorem transmissions_do_not_interfere (h1 h2 : CGPSHandler) (s : List Nat)
    (blocks : List (List Nat)) (hc : h1.m_callsign = h2.m_callsign)
    (hk : blocks.length ≤ 16) :
    (∃ lines,
      (processBlocks (processHeader h1 s) blocks).m_writer = h1.m_writer ++ lines ∧
      (processBlocks (processHeader h2 s) blocks).m_writer = h2.m_writer ++ lines) ∧
    (processBlocks (processHeader h1 s) blocks).m_data =
      (processBlocks (processHeader h2 s) blocks).m_data ∧
    (processBlocks (processHeader h1 s) blocks).m_length =
      (processBlocks (processHeader h2 s) blocks).m_length ∧
    (processBlocks (processHeader h1 s) blocks).m_source =
      (processBlocks (processHeader h2 s) blocks).m_source ∧
    (processBlocks (processHeader h1 s) blocks).m_length ≤ NXDN_DATA_MAX_LENGTH := by
  obtain ⟨hw, hd, hl, hs⟩ :=
    processBlocks_congr blocks (processHeader h1 s) (processHeader h2 s) hc rfl rfl rfl
  refine ⟨hw, hd, hl, hs, ?_⟩
  have hle := processBlocks_length_le blocks (processHeader h1 s)
  have h0 : (processHeader h1 s).m_length = 0 := rfl
  simp only [NXDN_DATA_MAX_LENGTH, NXDN_DATA_LENGTH] at hle ⊢
  omega

/-- The theorem at a new handler and a handler that has written a line, with
the blocks of the end-to-end scenario. -/
theorem transmissions_do_not_interfere_witness :
    (processBlocks (processHeader (construct (bytes "W1AW")) (bytes "ABC123"))
      (blocksOf 4 (NXDN_DATA_TYPE_GPS :: bytes checkedSentence))).m_data =
    (processBlocks (processHeader (scenario noBearingSentence 3) (bytes "ABC123"))
      (blocksOf 4 (NXDN_DATA_TYPE_GPS :: bytes checkedSentence))).m_data :=
  (transmissions_do_not_interfere (construct (bytes "W1AW")) (scenario noBearingSentence 3)
    (bytes "ABC123") (blocksOf 4 (NXDN_DATA_TYPE_GPS :: bytes checkedSentence))
    (by decide) (by decide)).2.1

end NXDNGateway
